import Mathlib

set_option maxRecDepth 8192

/-!
Verification of the portfolio input-estimation and optimization core of the
server repository.  The JavaScript sources are embedded shallowly:

* functions that only do ratio arithmetic (constraint clamping, CVaR) are
  embedded over an arbitrary linear ordered field and instantiated at `ℚ`,
  so concrete runs are decidable;
* functions using `Math.log` / `Math.sqrt` are embedded over `ℝ`;
* where a claim is about NaN/Infinity behaviour, numbers are embedded as
  `Option ℝ` with `none` standing for a non-finite IEEE value (NaN or ±∞);
  the arithmetic on that type propagates non-finiteness exactly as IEEE
  addition, multiplication, division, `Math.log` and `Math.sqrt` do for the
  operations the source performs;
* JS truthiness of optional numeric/string option fields (`x || default`)
  is embedded explicitly: `undefined`, `0` and the empty string are falsy.
-/

/- =========================================================
   JavaScript-flavoured helpers
   ========================================================= -/

/-- JS `o || d` for an optional numeric value: `undefined` and `0` are falsy
and select the default. -/
def jsOrNum {α : Type} [Zero α] [DecidableEq α] (o : Option α) (d : α) : α :=
  match o with
  | some v => if v = 0 then d else v
  | none => d

/-- JS `o || d` for an optional string value: `undefined` and the empty
string are falsy and select the default. -/
def jsOrStr (o : Option String) (d : String) : String :=
  match o with
  | some s => if s = "" then d else s
  | none => d

/-- JS truthiness of an optional numeric field (`if (x)`): `undefined` and
`0` are falsy. -/
def jsTruthy {α : Type} [Zero α] [DecidableEq α] (o : Option α) : Bool :=
  match o with
  | some v => v != 0
  | none => false

/- =========================================================
   Portfolio optimization engine (optimizationEngine.js),
   exact-arithmetic part
   ========================================================= -/

/-- The constraints object consumed by applyConstraints: `longOnly`,
`maxWeight`, `minWeight`; absent fields are `none` (JS `undefined`). -/
structure JsConstraints (α : Type) where
  longOnly : Option Bool := none
  maxWeight : Option α := none
  minWeight : Option α := none


/-- Stage 1 of `applyConstraints`: the long-only clamp
`if (constraints.longOnly !== false) w.map(x => Math.max(0, x))`. -/
def longOnlyWeights {α : Type} [LinearOrderedField α]
    (o : Option Bool) (l : List α) : List α :=
  if o ≠ some false then l.map (fun w => max 0 w) else l

/-- Stage 2 of `applyConstraints`: `if (constraints.maxWeight)
w.map(x => Math.min(x, maxWeight))`; `undefined` and `0` are falsy. -/
def capWeights {α : Type} [LinearOrderedField α]
    (o : Option α) (l : List α) : List α :=
  match o with
  | some m => if m = 0 then l else l.map (fun w => min w m)
  | none => l

/-- Stage 3 of `applyConstraints`: `if (constraints.minWeight)
w.map(x => Math.max(x, minWeight))`; `undefined` and `0` are falsy. -/
def floorWeights {α : Type} [LinearOrderedField α]
    (o : Option α) (l : List α) : List α :=
  match o with
  | some m => if m = 0 then l else l.map (fun w => max w m)
  | none => l

/-- Stage 4 of `applyConstraints`: renormalise to sum 1, guarded by
`if (sum > 0)`. -/
def renormWeights {α : Type} [LinearOrderedField α] (l : List α) : List α :=
  if 0 < l.sum then l.map (fun w => w / l.sum) else l

/-- Embeds `applyConstraints(weights, constraints)` of the optimization
engine: the four sequential reassignments of `constrainedWeights` in the
source are the four stage functions above, applied in order. -/
def applyConstraints {α : Type} [LinearOrderedField α]
    (weights : List α) (constraints : JsConstraints α) : List α :=
  renormWeights (floorWeights constraints.minWeight
    (capWeights constraints.maxWeight
      (longOnlyWeights constraints.longOnly weights)))

/-- Embeds the helper `calculatePortfolioReturn(weights, returns)`, i.e.
`weights.reduce((sum, w, i) => sum + w * returns[i], 0)`.  The indexed
access is modelled by zipping; all call sites pass equally long lists. -/
def calculatePortfolioReturn {α : Type} [LinearOrderedField α]
    (weights returns : List α) : α :=
  ((weights.zip returns).map (fun p => p.1 * p.2)).sum

/-- Embeds `calculateCVaR(weights, scenarioReturns, confidenceLevel)`:
portfolio return per scenario, sort ascending, average the worst
`⌊confidenceLevel · N⌋` outcomes.  When that tail is empty the JS code
divides `0 / 0` and yields NaN; this is modelled as `none`. -/
def calculateCVaR (weights : List ℚ) (scenarioReturns : List (List ℚ))
    (confidenceLevel : ℚ) : Option ℚ :=
  let portfolioReturns :=
    scenarioReturns.map (fun s => calculatePortfolioReturn weights s)
  let sorted := portfolioReturns.insertionSort (· ≤ ·)
  let varIndex := (⌊confidenceLevel * (portfolioReturns.length : ℚ)⌋).toNat
  let tailReturns := sorted.take varIndex
  if tailReturns.length = 0 then none
  else some (tailReturns.sum / (tailReturns.length : ℚ))

/-- JS `a <= b` on possibly-NaN numbers: comparisons with NaN are false. -/
def jsLeQ (a b : Option ℚ) : Bool :=
  match a, b with
  | some x, some y => decide (x ≤ y)
  | _, _ => false

/- =========================================================
   List lemmas used by the claims about the exact part
   ========================================================= -/

theorem list_sum_map_div {α : Type} [DivisionRing α] (l : List α) (s : α) :
    (l.map (fun x => x / s)).sum = l.sum / s := by
  induction l with
  | nil => simp
  | cons a t ih => simp [ih, add_div]

theorem list_sum_pos_of_mem {α : Type} [LinearOrderedField α] {l : List α}
    {x : α} (hall : ∀ y ∈ l, 0 ≤ y) (hx : x ∈ l) (hxpos : 0 < x) :
    0 < l.sum := by
  induction l with
  | nil => cases hx
  | cons a t ih =>
    rcases List.mem_cons.mp hx with rfl | hxt
    · have ht : 0 ≤ t.sum :=
        List.sum_nonneg (fun y hy => hall y (List.mem_cons_of_mem _ hy))
      simpa using add_pos_of_pos_of_nonneg hxpos ht
    · have ha : 0 ≤ a := hall a (List.mem_cons_self _ _)
      have ht : 0 < t.sum :=
        ih (fun y hy => hall y (List.mem_cons_of_mem _ hy)) hxt
      simpa using add_pos_of_nonneg_of_pos ha ht

/- =========================================================
   Stage lemmas for applyConstraints
   ========================================================= -/

theorem longOnlyWeights_true_nonneg {α : Type} [LinearOrderedField α]
    {l : List α} : ∀ y ∈ longOnlyWeights (α := α) (some true) l, 0 ≤ y := by
  intro y hy
  simp only [longOnlyWeights, ne_eq, Option.some.injEq, reduceCtorEq,
    not_false_eq_true, if_true] at hy
  obtain ⟨z, _, rfl⟩ := List.mem_map.mp hy
  exact le_max_left 0 z

theorem longOnlyWeights_true_pos {α : Type} [LinearOrderedField α]
    {l : List α} {x : α} (hx : x ∈ l) (hxpos : 0 < x) :
    ∃ y ∈ longOnlyWeights (α := α) (some true) l, 0 < y := by
  simp only [longOnlyWeights, ne_eq, Option.some.injEq, reduceCtorEq,
    not_false_eq_true, if_true]
  exact ⟨max 0 x, List.mem_map_of_mem _ hx, lt_max_of_lt_right hxpos⟩

theorem capWeights_nonneg {α : Type} [LinearOrderedField α]
    {o : Option α} (ho : ∀ m ∈ o, 0 ≤ m) {l : List α}
    (hall : ∀ y ∈ l, 0 ≤ y) : ∀ y ∈ capWeights o l, 0 ≤ y := by
  cases o with
  | none => simpa [capWeights] using hall
  | some m =>
    by_cases hm : m = 0
    · simpa [capWeights, hm] using hall
    · intro y hy
      simp only [capWeights, if_neg hm] at hy
      obtain ⟨z, hz, rfl⟩ := List.mem_map.mp hy
      exact le_min (hall z hz) (ho m rfl)

theorem capWeights_pos {α : Type} [LinearOrderedField α]
    {o : Option α} (ho : ∀ m ∈ o, 0 ≤ m) {l : List α}
    (hpos : ∃ y ∈ l, 0 < y) : ∃ y ∈ capWeights o l, 0 < y := by
  obtain ⟨y, hy, hypos⟩ := hpos
  cases o with
  | none => exact ⟨y, hy, hypos⟩
  | some m =>
    by_cases hm : m = 0
    · simp only [capWeights, if_pos hm]
      exact ⟨y, hy, hypos⟩
    · have hmpos : 0 < m := lt_of_le_of_ne (ho m rfl) (Ne.symm hm)
      simp only [capWeights, if_neg hm]
      exact ⟨min y m, List.mem_map_of_mem _ hy, lt_min hypos hmpos⟩

theorem floorWeights_nonneg {α : Type} [LinearOrderedField α]
    {o : Option α} {l : List α}
    (hall : ∀ y ∈ l, 0 ≤ y) : ∀ y ∈ floorWeights o l, 0 ≤ y := by
  cases o with
  | none => simpa [floorWeights] using hall
  | some m =>
    by_cases hm : m = 0
    · simpa [floorWeights, hm] using hall
    · intro y hy
      simp only [floorWeights, if_neg hm] at hy
      obtain ⟨z, hz, rfl⟩ := List.mem_map.mp hy
      exact le_trans (hall z hz) (le_max_left z m)

theorem floorWeights_pos {α : Type} [LinearOrderedField α]
    {o : Option α} {l : List α}
    (hpos : ∃ y ∈ l, 0 < y) : ∃ y ∈ floorWeights o l, 0 < y := by
  obtain ⟨y, hy, hypos⟩ := hpos
  cases o with
  | none => exact ⟨y, hy, hypos⟩
  | some m =>
    by_cases hm : m = 0
    · simp only [floorWeights, if_pos hm]
      exact ⟨y, hy, hypos⟩
    · simp only [floorWeights, if_neg hm]
      exact ⟨max y m, List.mem_map_of_mem _ hy, lt_max_of_lt_left hypos⟩

theorem renormWeights_ok {α : Type} [LinearOrderedField α] {l : List α}
    (hall : ∀ y ∈ l, 0 ≤ y) (hpos : ∃ y ∈ l, 0 < y) :
    (∀ y ∈ renormWeights l, 0 ≤ y) ∧ (renormWeights l).sum = 1 := by
  obtain ⟨y, hy, hypos⟩ := hpos
  have hsum : 0 < l.sum := list_sum_pos_of_mem hall hy hypos
  simp only [renormWeights, if_pos hsum]
  refine ⟨?_, ?_⟩
  · intro z hz
    obtain ⟨u, hu, rfl⟩ := List.mem_map.mp hz
    exact div_nonneg (hall u hu) hsum.le
  · rw [list_sum_map_div]
    exact div_self (ne_of_gt hsum)

/- =========================================================
   Claim C1: applyConstraints under longOnly
   ========================================================= -/

/-- C1, counterexample.  The claim says that with `longOnly = true` every
weight vector coming out of `applyConstraints` is nonnegative and sums to 1
within 1e-6.  With the all-negative input `[-1]` every entry is clamped to
0, the sum is 0, so the renormalisation guard `sum > 0` skips and the
output sums to 0, not 1. -/
theorem C1_counterexample :
    ¬ ((∀ y ∈ applyConstraints ([-1] : List ℚ) { longOnly := some true }, 0 ≤ y) ∧
      |(applyConstraints ([-1] : List ℚ) { longOnly := some true }).sum - 1|
        ≤ 1 / 1000000) := by
  have h : applyConstraints ([-1] : List ℚ) { longOnly := some true } = [0] := by
    norm_num [applyConstraints, longOnlyWeights, capWeights, floorWeights,
      renormWeights]
  rintro ⟨-, habs⟩
  rw [h] at habs
  norm_num at habs

/-- C1, amended.  If `longOnly = true`, any supplied `maxWeight` is
nonnegative, and at least one input weight is positive, then the output of
`applyConstraints` is entrywise nonnegative and sums to exactly 1 (hence
within the 1e-6 tolerance).  Without such a positivity assumption the
clamped sum can be 0 and the renormalisation is skipped
(`C1_counterexample`). -/
theorem C1_amended {α : Type} [LinearOrderedField α]
    {weights : List α} {constraints : JsConstraints α}
    (hlong : constraints.longOnly = some true)
    (hmax : ∀ m ∈ constraints.maxWeight, 0 ≤ m)
    (hpos : ∃ x ∈ weights, 0 < x) :
    (∀ y ∈ applyConstraints weights constraints, 0 ≤ y) ∧
      (applyConstraints weights constraints).sum = 1 := by
  obtain ⟨x, hx, hxpos⟩ := hpos
  unfold applyConstraints
  rw [hlong]
  exact renormWeights_ok
    (floorWeights_nonneg (capWeights_nonneg hmax longOnlyWeights_true_nonneg))
    (floorWeights_pos (capWeights_pos hmax (longOnlyWeights_true_pos hx hxpos)))

/-- C1, witness for the amended theorem at a concrete input. -/
theorem C1_amended_witness :
    (∀ y ∈ applyConstraints ([2, -1] : List ℚ)
        { longOnly := some true, maxWeight := some (1/2), minWeight := some (1/100) },
      0 ≤ y) ∧
      (applyConstraints ([2, -1] : List ℚ)
        { longOnly := some true, maxWeight := some (1/2), minWeight := some (1/100) }).sum
        = 1 :=
  C1_amended rfl (by intro m hm; simp at hm; norm_num [← hm])
    ⟨2, by simp, by norm_num⟩

/- =========================================================
   Claim C8: CVaR tail-ordering
   ========================================================= -/

theorem sorted_take_mean_le {α : Type} [LinearOrderedField α] (l : List α)
    (hs : l.Sorted (· ≤ ·)) (k m : ℕ) (h1 : 1 ≤ k) (hkm : k ≤ m)
    (hm : m ≤ l.length) :
    (l.take k).sum / (k : α) ≤ (l.take m).sum / (m : α) := by
  rcases eq_or_lt_of_le hkm with rfl | hlt
  · exact le_refl _
  have hk0 : (0 : α) < k := Nat.cast_pos.mpr (by omega)
  have hm0 : (0 : α) < m := Nat.cast_pos.mpr (by omega)
  rw [div_le_div_iff₀ hk0 hm0]
  have hsplit : l.take m = l.take k ++ (l.drop k).take (m - k) := by
    rw [← List.take_add]
    congr 1
    omega
  have hlenA : (l.take k).length = k := by
    simp only [List.length_take]
    omega
  have hlenB : ((l.drop k).take (m - k)).length = m - k := by
    simp only [List.length_take, List.length_drop]
    omega
  have hcross : ∀ x ∈ l.take k, ∀ y ∈ l.drop k, x ≤ y := by
    have h := hs
    rw [← List.take_append_drop k l, List.Sorted, List.pairwise_append] at h
    exact h.2.2
  have hBne : (l.drop k).take (m - k) ≠ [] := by
    intro hnil
    rw [hnil] at hlenB
    simp at hlenB
    omega
  obtain ⟨p, t, hBpt⟩ := List.exists_cons_of_ne_nil hBne
  have hpB : p ∈ l.drop k := by
    have hp : p ∈ (l.drop k).take (m - k) := by
      rw [hBpt]; exact List.mem_cons_self _ _
    exact List.take_subset _ _ hp
  have hAp : ∀ x ∈ l.take k, x ≤ p := fun x hx => hcross x hx p hpB
  have hsortB : ((l.drop k).take (m - k)).Sorted (· ≤ ·) :=
    (hs.sublist (List.drop_sublist k l)).sublist (List.take_sublist _ _)
  have hpt : ∀ y ∈ t, p ≤ y := by
    rw [hBpt] at hsortB
    exact (List.sorted_cons.mp hsortB).1
  have hsumA : (l.take k).sum ≤ (k : α) * p := by
    have h := List.sum_le_card_nsmul (l.take k) p hAp
    rwa [hlenA, nsmul_eq_mul] at h
  have hlent : t.length = m - k - 1 := by
    have h : ((l.drop k).take (m - k)).length = t.length + 1 := by
      rw [hBpt]; simp
    omega
  have hsumt : ((m : α) - k - 1) * p ≤ t.sum := by
    have h := List.card_nsmul_le_sum t p hpt
    rw [hlent, nsmul_eq_mul] at h
    have hc : ((m - k - 1 : ℕ) : α) = (m : α) - k - 1 := by
      rw [Nat.cast_sub (by omega), Nat.cast_sub (by omega)]
      norm_num
    rwa [hc] at h
  have hsumm : (l.take m).sum = (l.take k).sum + (p + t.sum) := by
    rw [hsplit, List.sum_append, hBpt, List.sum_cons]
  rw [hsumm]
  have hMK : (1 : α) ≤ (m : α) - k := by
    have h : ((k : α)) + 1 ≤ (m : α) := by exact_mod_cast Nat.cast_le.mpr hlt
    linarith
  nlinarith [mul_le_mul_of_nonneg_right hsumA (by linarith : (0 : α) ≤ (m : α) - k),
    mul_le_mul_of_nonneg_right hsumt (le_of_lt hk0)]

/-- C8, counterexample.  With 10 scenarios, `⌊0.05 · 10⌋ = 0`, so the 5%
tail is empty and `calculateCVaR` divides `0/0`, yielding NaN; the claimed
inequality `CVaR_0.05 ≤ CVaR_0.10` is then false (NaN compares false),
while `CVaR_0.10` is the well-defined value `-1`. -/
theorem C8_counterexample :
    jsLeQ
      (calculateCVaR [1] [[-1], [0], [0], [0], [0], [0], [0], [0], [0], [0]] (1/20))
      (calculateCVaR [1] [[-1], [0], [0], [0], [0], [0], [0], [0], [0], [0]] (1/10))
      = false := by
  have hmap : ([[-1], [0], [0], [0], [0], [0], [0], [0], [0], [0]] :
      List (List ℚ)).map (fun s => calculatePortfolioReturn [1] s)
      = [-1, 0, 0, 0, 0, 0, 0, 0, 0, 0] := by
    norm_num [calculatePortfolioReturn]
  have hcv1 : calculateCVaR [1]
      [[-1], [0], [0], [0], [0], [0], [0], [0], [0], [0]] (1/20) = none := by
    simp only [calculateCVaR, hmap]
    norm_num [List.insertionSort, List.orderedInsert]
  have hcv2 : calculateCVaR [1]
      [[-1], [0], [0], [0], [0], [0], [0], [0], [0], [0]] (1/10) = some (-1) := by
    simp only [calculateCVaR, hmap]
    norm_num [List.insertionSort, List.orderedInsert]
  rw [hcv1, hcv2]
  rfl

/-- C8, amended.  Whenever the 5% tail is nonempty (`⌊0.05 · N⌋ ≥ 1`, i.e.
at least 20 scenarios), the CVaR at confidence 0.05 is less than or equal
to the CVaR at confidence 0.10: the mean over a shorter ascending-sorted
prefix is at most the mean over a longer one. -/
theorem C8_amended (weights : List ℚ) (scenarioReturns : List (List ℚ))
    (h : 1 ≤ ⌊(1/20 : ℚ) * (scenarioReturns.length : ℚ)⌋) :
    jsLeQ (calculateCVaR weights scenarioReturns (1/20))
      (calculateCVaR weights scenarioReturns (1/10)) = true := by
  simp only [calculateCVaR, List.length_map]
  set l := scenarioReturns.map (fun s => calculatePortfolioReturn weights s) with hl
  set srt := l.insertionSort (· ≤ ·) with hsrt
  have hlenl : l.length = scenarioReturns.length := List.length_map _ _
  have hlens : srt.length = l.length := (List.perm_insertionSort _ l).length_eq
  set k := (⌊(1/20 : ℚ) * (scenarioReturns.length : ℚ)⌋).toNat with hk
  set m := (⌊(1/10 : ℚ) * (scenarioReturns.length : ℚ)⌋).toNat with hm
  have hk1 : 1 ≤ k := by omega
  have hfkm : ⌊(1/20 : ℚ) * (scenarioReturns.length : ℚ)⌋
      ≤ ⌊(1/10 : ℚ) * (scenarioReturns.length : ℚ)⌋ := by
    apply Int.floor_le_floor
    have hN : (0 : ℚ) ≤ (scenarioReturns.length : ℚ) := Nat.cast_nonneg _
    nlinarith
  have hkm : k ≤ m := Int.toNat_le_toNat hfkm
  have hfm : ⌊(1/10 : ℚ) * (scenarioReturns.length : ℚ)⌋
      ≤ (scenarioReturns.length : ℤ) := by
    have hle : (1/10 : ℚ) * (scenarioReturns.length : ℚ)
        ≤ ((scenarioReturns.length : ℚ)) := by
      have hN : (0 : ℚ) ≤ (scenarioReturns.length : ℚ) := Nat.cast_nonneg _
      nlinarith
    calc ⌊(1/10 : ℚ) * (scenarioReturns.length : ℚ)⌋
        ≤ ⌊((scenarioReturns.length : ℕ) : ℚ)⌋ := Int.floor_le_floor hle
      _ = (scenarioReturns.length : ℤ) := Int.floor_natCast _
  have hmN : m ≤ srt.length := by
    rw [hlens, hlenl]
    omega
  have hktail : (srt.take k).length = k := by
    simp only [List.length_take]
    omega
  have hmtail : (srt.take m).length = m := by
    simp only [List.length_take]
    omega
  rw [hktail, hmtail, if_neg (by omega), if_neg (by omega)]
  have hmean := sorted_take_mean_le srt (List.sorted_insertionSort _ l) k m hk1 hkm hmN
  simp only [jsLeQ, decide_eq_true_eq]
  exact hmean

/-- C8, witness for the amended theorem: 20 scenarios, so the 5% tail has
exactly one element. -/
theorem C8_amended_witness :
    jsLeQ
      (calculateCVaR [1]
        [[-1], [0], [0], [0], [0], [0], [0], [0], [0], [0],
         [0], [0], [0], [0], [0], [0], [0], [0], [0], [0]] (1/20))
      (calculateCVaR [1]
        [[-1], [0], [0], [0], [0], [0], [0], [0], [0], [0],
         [0], [0], [0], [0], [0], [0], [0], [0], [0], [0]] (1/10)) = true :=
  C8_amended [1] _ (by norm_num)

/- =========================================================
   IEEE non-finiteness tracking over ℝ
   ========================================================= -/

/-- A JS number in the estimation pipeline: `some x` is the finite value
`x`, `none` is any non-finite value (NaN, +∞ or -∞).  The pipeline never
overflows a finite double in the regimes the claims quantify over, so
finite arithmetic is modelled exactly; every operation below sends
non-finite operands to `none`, which is how NaN/±∞ propagate through the
additions, multiplications, divisions, `Math.log`, `Math.sqrt` and
`Math.max` that the estimation source performs. -/
abbrev FNum : Type := Option ℝ

/-- Finite embedding. -/
def fin (x : ℝ) : FNum := some x

/-- Addition; any non-finite operand contaminates the result (Inf + finite,
Inf - Inf and NaN + anything are all non-finite). -/
def Fadd (a b : FNum) : FNum :=
  match a, b with
  | some x, some y => some (x + y)
  | _, _ => none

/-- Subtraction, with the same contamination rule. -/
def Fsub (a b : FNum) : FNum :=
  match a, b with
  | some x, some y => some (x - y)
  | _, _ => none

/-- Multiplication, with the same contamination rule (Inf · 0 is NaN). -/
def Fmul (a b : FNum) : FNum :=
  match a, b with
  | some x, some y => some (x * y)
  | _, _ => none

/-- Division: a zero denominator gives ±∞ or NaN, hence `none`; the
source never divides a finite numerator by a non-finite denominator. -/
noncomputable def Fdiv (a b : FNum) : FNum :=
  match a, b with
  | some x, some y => if y = 0 then none else some (x / y)
  | _, _ => none

/-- `Math.log`: non-positive arguments give -∞ or NaN, hence `none`. -/
noncomputable def Flog (a : FNum) : FNum :=
  match a with
  | some x => if 0 < x then some (Real.log x) else none
  | none => none

/-- `Math.sqrt`: negative arguments give NaN, hence `none`. -/
noncomputable def Fsqrt (a : FNum) : FNum :=
  match a with
  | some x => if x < 0 then none else some (Real.sqrt x)
  | none => none

/-- `Math.max` on the (finite-valued) uses the source makes of it. -/
def Fmax (a b : FNum) : FNum :=
  match a, b with
  | some x, some y => some (max x y)
  | _, _ => none

/-- Summation as the source's `+=` accumulation, starting from 0. -/
def Fsum (l : List FNum) : FNum := l.foldr Fadd (some 0)

/- =========================================================
   Input estimation engine (inputEstimationEngine.js)
   ========================================================= -/

/-- The options object taken by the estimation methods; absent fields are
`none`. -/
structure EstOptions where
  lookback : Option ℕ := none
  lambda : Option ℝ := none
  riskFreeRate : Option ℝ := none
  marketReturn : Option ℝ := none
  marketSymbol : Option String := none
  shrinkageIntensity : Option ℝ := none

/-- `this.defaultLookbackPeriod`, set in the constructor: 252 (one year of
daily data). -/
def defaultLookbackPeriod : ℕ := 252

/-- `options.lookback || this.defaultLookbackPeriod` (0 is falsy). -/
def effectiveLookback (o : EstOptions) : ℕ :=
  jsOrNum o.lookback defaultLookbackPeriod

/-- `arr.slice(-n)` for `n ≥ 1`: the last `n` elements. -/
def sliceLast {β : Type} (n : ℕ) (l : List β) : List β :=
  l.drop (l.length - n)

/-- The log-return series of a close-price list: one entry
`Math.log(prices[i].close / prices[i-1].close)` per consecutive index pair
`(i-1, i)`.  A price entry is represented by its close (the only field the
estimation engine reads). -/
noncomputable def logReturns (prices : List ℝ) : List FNum :=
  (prices.zip prices.tail).map (fun p => Flog (Fdiv (some p.2) (some p.1)))

/-- Per-symbol body of `historicalMeanReturns`: fewer than 2 sliced prices
gives 0; otherwise the mean log-return annualised by 252. -/
noncomputable def historicalMeanSymbol (o : EstOptions) (prices : List ℝ) :
    FNum :=
  let sliced := sliceLast (effectiveLookback o) prices
  if sliced.length < 2 then some 0
  else
    Fmul (Fdiv (Fsum (logReturns sliced)) (some ((sliced.length : ℝ) - 1)))
      (some 252)

/-- Embeds `historicalMeanReturns(priceHistory, options)`.  A price
history is an association list keyed by symbol (JS object keys are
unique and iterated in insertion order). -/
noncomputable def historicalMeanReturns
    (priceHistory : List (String × List ℝ)) (o : EstOptions) :
    List (String × FNum) :=
  priceHistory.map (fun p => (p.1, historicalMeanSymbol o p.2))

/-- Per-symbol body of `exponentialWeightedReturns`: log-returns weighted
by `lambda^(n-1-i)` (the source accumulates `weightedSum` and `weightSum`
in one pass; they are written as two sums over the same index range). -/
noncomputable def exponentialWeightedSymbol (o : EstOptions)
    (prices : List ℝ) : FNum :=
  let lam := jsOrNum o.lambda (0.94 : ℝ)
  let sliced := sliceLast (effectiveLookback o) prices
  if sliced.length < 2 then some 0
  else
    let rs := logReturns sliced
    let weightedSum :=
      Fsum (rs.enum.map (fun q => Fmul (some (lam ^ (sliced.length - 2 - q.1))) q.2))
    let weightSum :=
      Fsum (rs.enum.map (fun q => some (lam ^ (sliced.length - 2 - q.1))))
    Fmul (Fdiv weightedSum weightSum) (some 252)

/-- Embeds `exponentialWeightedReturns(priceHistory, options)`. -/
noncomputable def exponentialWeightedReturns
    (priceHistory : List (String × List ℝ)) (o : EstOptions) :
    List (String × FNum) :=
  priceHistory.map (fun p => (p.1, exponentialWeightedSymbol o p.2))

/-- Embeds the helper `calculateVariance(series)` (sample variance with
denominator `length - 1`; a one-element series divides by 0, i.e. NaN). -/
noncomputable def calculateVariance (series : List FNum) : FNum :=
  if series.length = 0 then some 0
  else
    let mean := Fdiv (Fsum series) (some (series.length : ℝ))
    Fdiv (Fsum (series.map (fun x => Fmul (Fsub x mean) (Fsub x mean))))
      (some ((series.length : ℝ) - 1))

/-- Embeds the helper `calculateCovariance(series1, series2)` (returns 0
on length mismatch or empty input; denominator `length - 1`). -/
noncomputable def calculateCovariance (series1 series2 : List FNum) : FNum :=
  if series1.length ≠ series2.length ∨ series1.length = 0 then some 0
  else
    let mean1 := Fdiv (Fsum series1) (some (series1.length : ℝ))
    let mean2 := Fdiv (Fsum series2) (some (series2.length : ℝ))
    Fdiv
      (Fsum ((series1.zip series2).map
        (fun p => Fmul (Fsub p.1 mean1) (Fsub p.2 mean2))))
      (some ((series1.length : ℝ) - 1))

/-- The per-symbol return series built at the top of
`sampleCovarianceMatrix`: empty when fewer than 2 sliced prices. -/
noncomputable def returnSeries (o : EstOptions) (prices : List ℝ) :
    List FNum :=
  let sliced := sliceLast (effectiveLookback o) prices
  if sliced.length < 2 then [] else logReturns sliced

/-- The `{matrix, symbols}` record returned by the covariance
estimators. -/
structure CovResult where
  matrix : List (List FNum)
  symbols : List String

/-- Embeds `sampleCovarianceMatrix(priceHistory, options)`.  The source
keys `returnSeries` by the same symbols it iterates, so the object lookup
`returnSeries[symbols[i]]` is positional. -/
noncomputable def sampleCovarianceMatrix
    (priceHistory : List (String × List ℝ)) (o : EstOptions) : CovResult :=
  let symbols := priceHistory.map Prod.fst
  let series := priceHistory.map (fun p => returnSeries o p.2)
  let n := symbols.length
  let matrix := (List.range n).map (fun i => (List.range n).map (fun j =>
    let returns1 := series.getD i []
    let returns2 := series.getD j []
    if returns1.length ≠ 0 ∧ returns2.length ≠ 0 then
      let minLength := min returns1.length returns2.length
      if i = j then
        Fmul (calculateVariance (sliceLast minLength returns1)) (some 252)
      else
        Fmul (calculateCovariance (sliceLast minLength returns1)
          (sliceLast minLength returns2)) (some 252)
    else if i = j then some (1/100) else some 0))
  { matrix := matrix, symbols := symbols }

/-- Embeds `calculateOptimalShrinkage(sampleCov)`: the source ignores its
argument and returns the constant 0.1. -/
noncomputable def calculateOptimalShrinkage (_sampleCov : CovResult) : ℝ :=
  1/10

/-- Embeds `calculateAverageCovariance(matrix)`: the mean of the
off-diagonal entries, 0 when there are none. -/
noncomputable def calculateAverageCovariance (matrix : List (List FNum)) :
    FNum :=
  let n := matrix.length
  let offDiag := ((List.range n).map (fun i =>
    ((List.range n).filter (fun j => j ≠ i)).map
      (fun j => (matrix.getD i []).getD j (some 0)))).flatten
  if 0 < offDiag.length then Fdiv (Fsum offDiag) (some (offDiag.length : ℝ))
  else some 0

/-- Embeds `shrinkageCovarianceMatrix(priceHistory, options)`.  Note the
defaulting `options.shrinkageIntensity || this.calculateOptimalShrinkage(...)`:
an explicitly supplied intensity of 0 is falsy in JS and therefore falls
back to the 0.1 default. -/
noncomputable def shrinkageCovarianceMatrix
    (priceHistory : List (String × List ℝ)) (o : EstOptions) : CovResult :=
  let sampleCov := sampleCovarianceMatrix priceHistory o
  let shrinkageIntensity :=
    jsOrNum o.shrinkageIntensity (calculateOptimalShrinkage sampleCov)
  let n := sampleCov.symbols.length
  let sampleMatrix := sampleCov.matrix
  let avgVariance :=
    Fdiv (Fsum ((List.range n).map
      (fun i => (sampleMatrix.getD i []).getD i (some 0))))
      (some (n : ℝ))
  let avgCovariance := calculateAverageCovariance sampleMatrix
  let targetMatrix := (List.range n).map (fun i => (List.range n).map
    (fun j => if i = j then avgVariance else avgCovariance))
  let shrunkMatrix := (List.range n).map (fun i => (List.range n).map
    (fun j =>
      Fadd
        (Fmul (some (1 - shrinkageIntensity))
          ((sampleMatrix.getD i []).getD j (some 0)))
        (Fmul (some shrinkageIntensity)
          ((targetMatrix.getD i []).getD j (some 0)))))
  { matrix := shrunkMatrix, symbols := sampleCov.symbols }

/-- Embeds `factorModelCovariance(priceHistory, options)`: the source
falls back to the sample covariance (the `factors` option is unused). -/
noncomputable def factorModelCovariance
    (priceHistory : List (String × List ℝ)) (o : EstOptions) : CovResult :=
  sampleCovarianceMatrix priceHistory o

/-- Embeds `calculateBetas(priceHistory, marketSymbol, options)`.
`marketVariance > 0 ? covariance / marketVariance : 1.0` is false for NaN,
so a non-finite market variance also yields the default beta 1. -/
noncomputable def calculateBetas (priceHistory : List (String × List ℝ))
    (marketSymbol : String) (o : EstOptions) : List (String × FNum) :=
  let lookback := effectiveLookback o
  let symbols := (priceHistory.map Prod.fst).filter (fun s => s ≠ marketSymbol)
  let marketPrices :=
    sliceLast lookback ((priceHistory.lookup marketSymbol).getD [])
  if marketPrices.length < 2 then []
  else
    let marketReturns := logReturns marketPrices
    symbols.map (fun symbol =>
      let assetPrices :=
        sliceLast lookback ((priceHistory.lookup symbol).getD [])
      if assetPrices.length < 2 then (symbol, some 1)
      else
        let assetReturns := logReturns assetPrices
        let minLength := min marketReturns.length assetReturns.length
        let covariance := calculateCovariance (sliceLast minLength assetReturns)
          (sliceLast minLength marketReturns)
        match calculateVariance (sliceLast minLength marketReturns) with
        | some v => if 0 < v then (symbol, Fdiv covariance (some v))
                    else (symbol, some 1)
        | none => (symbol, some 1))

/-- Embeds `capmReturns(priceHistory, options)`.  `betas[symbol] || 1.0`
falls back to 1 for a missing, zero or NaN beta. -/
noncomputable def capmReturns (priceHistory : List (String × List ℝ))
    (o : EstOptions) : List (String × FNum) :=
  let riskFreeRate := jsOrNum o.riskFreeRate (0.02 : ℝ)
  let marketReturn := jsOrNum o.marketReturn (0.08 : ℝ)
  let marketSymbol := jsOrStr o.marketSymbol "SPY"
  let symbols := (priceHistory.map Prod.fst).filter (fun s => s ≠ marketSymbol)
  let betas := calculateBetas priceHistory marketSymbol o
  symbols.map (fun symbol =>
    let beta : FNum :=
      match betas.lookup symbol with
      | some (some b) => if b = 0 then some 1 else some b
      | some none => some 1
      | none => some 1
    (symbol,
      Fadd (some riskFreeRate)
        (Fmul beta (some (marketReturn - riskFreeRate)))))

/-- Embeds the dispatcher `estimateExpectedReturns(priceHistory, method,
options)`.  The class defines no `blackLittermanReturns` method, so the
`black_litterman` arm throws a TypeError at runtime; every unregistered
method name throws an error naming it. -/
noncomputable def estimateExpectedReturns
    (priceHistory : List (String × List ℝ)) (method : String)
    (o : EstOptions) : Except String (List (String × FNum)) :=
  if method = "historical_mean" then
    .ok (historicalMeanReturns priceHistory o)
  else if method = "exponential_weighted" then
    .ok (exponentialWeightedReturns priceHistory o)
  else if method = "capm" then
    .ok (capmReturns priceHistory o)
  else if method = "black_litterman" then
    .error "TypeError: this.blackLittermanReturns is not a function"
  else
    .error ("Unknown return estimation method: " ++ method)

/-- Embeds the dispatcher `estimateCovarianceMatrix(priceHistory, method,
options)`. -/
noncomputable def estimateCovarianceMatrix
    (priceHistory : List (String × List ℝ)) (method : String)
    (o : EstOptions) : Except String CovResult :=
  if method = "sample" then
    .ok (sampleCovarianceMatrix priceHistory o)
  else if method = "shrinkage" then
    .ok (shrinkageCovarianceMatrix priceHistory o)
  else if method = "factor_model" then
    .ok (factorModelCovariance priceHistory o)
  else
    .error ("Unknown covariance estimation method: " ++ method)

/- =========================================================
   Basic facts about the FNum operations
   ========================================================= -/

theorem Fadd_some (x y : ℝ) : Fadd (some x) (some y) = some (x + y) := rfl

theorem Fadd_none_left (b : FNum) : Fadd none b = none := by
  cases b <;> rfl

theorem Fadd_none_right (a : FNum) : Fadd a none = none := by
  cases a <;> rfl

theorem Fsub_some (x y : ℝ) : Fsub (some x) (some y) = some (x - y) := rfl

theorem Fmul_some (x y : ℝ) : Fmul (some x) (some y) = some (x * y) := rfl

theorem Fmul_none_left (b : FNum) : Fmul none b = none := by
  cases b <;> rfl

theorem Fdiv_some {y : ℝ} (x : ℝ) (h : y ≠ 0) :
    Fdiv (some x) (some y) = some (x / y) := by
  simp [Fdiv, h]

theorem Fdiv_none_left (b : FNum) : Fdiv none b = none := by
  cases b <;> rfl

theorem Flog_pos {x : ℝ} (h : 0 < x) : Flog (some x) = some (Real.log x) := by
  simp [Flog, h]

theorem Flog_nonpos {x : ℝ} (h : ¬ 0 < x) : Flog (some x) = none := by
  simp [Flog, h]

theorem Flog_none : Flog none = none := rfl

theorem Fsum_nil : Fsum [] = some 0 := rfl

theorem Fsum_cons (a : FNum) (t : List FNum) :
    Fsum (a :: t) = Fadd a (Fsum t) := rfl

/-- A JS number is finite when it is `some` real value. -/
def FFinite (a : FNum) : Prop := ∃ x, a = some x

theorem FFinite_some (x : ℝ) : FFinite (some x) := ⟨x, rfl⟩

theorem not_FFinite_none : ¬ FFinite none := by
  rintro ⟨x, hx⟩
  cases hx

theorem FFinite_Fadd {a b : FNum} (ha : FFinite a) (hb : FFinite b) :
    FFinite (Fadd a b) := by
  obtain ⟨x, rfl⟩ := ha
  obtain ⟨y, rfl⟩ := hb
  exact ⟨x + y, rfl⟩

theorem FFinite_Fsub {a b : FNum} (ha : FFinite a) (hb : FFinite b) :
    FFinite (Fsub a b) := by
  obtain ⟨x, rfl⟩ := ha
  obtain ⟨y, rfl⟩ := hb
  exact ⟨x - y, rfl⟩

theorem FFinite_Fmul {a b : FNum} (ha : FFinite a) (hb : FFinite b) :
    FFinite (Fmul a b) := by
  obtain ⟨x, rfl⟩ := ha
  obtain ⟨y, rfl⟩ := hb
  exact ⟨x * y, rfl⟩

theorem FFinite_Fdiv {a : FNum} {y : ℝ} (ha : FFinite a) (hy : y ≠ 0) :
    FFinite (Fdiv a (some y)) := by
  obtain ⟨x, rfl⟩ := ha
  exact ⟨x / y, by simp [Fdiv, hy]⟩

theorem FFinite_Fsum {l : List FNum} (h : ∀ a ∈ l, FFinite a) :
    FFinite (Fsum l) := by
  induction l with
  | nil => exact ⟨0, rfl⟩
  | cons a t ih =>
    rw [Fsum_cons]
    exact FFinite_Fadd (h a (List.mem_cons_self _ _))
      (ih (fun b hb => h b (List.mem_cons_of_mem _ hb)))

/- =========================================================
   Claim C6: unknown estimation methods raise a naming error
   ========================================================= -/

/-- C6.  A return-estimation method outside the four registered names
makes `estimateExpectedReturns` fail with an error naming the method, and
a covariance method outside the three registered names makes
`estimateCovarianceMatrix` fail with an error naming it; neither silently
substitutes a default. -/
theorem C6_unknown_method_errors (priceHistory : List (String × List ℝ))
    (o : EstOptions) (method : String) :
    (method ∉ ["historical_mean", "exponential_weighted", "capm",
        "black_litterman"] →
      estimateExpectedReturns priceHistory method o =
        .error ("Unknown return estimation method: " ++ method)) ∧
    (method ∉ ["sample", "shrinkage", "factor_model"] →
      estimateCovarianceMatrix priceHistory method o =
        .error ("Unknown covariance estimation method: " ++ method)) := by
  constructor
  · intro h
    simp only [List.mem_cons, List.not_mem_nil, or_false, not_or] at h
    obtain ⟨h1, h2, h3, h4⟩ := h
    simp [estimateExpectedReturns, h1, h2, h3, h4]
  · intro h
    simp only [List.mem_cons, List.not_mem_nil, or_false, not_or] at h
    obtain ⟨h1, h2, h3⟩ := h
    simp [estimateCovarianceMatrix, h1, h2, h3]

/-- C6, witness at the concrete unregistered method name `bogus`. -/
theorem C6_unknown_method_errors_witness :
    estimateExpectedReturns [] "bogus" {} =
      .error ("Unknown return estimation method: " ++ "bogus") ∧
    estimateCovarianceMatrix [] "bogus" {} =
      .error ("Unknown covariance estimation method: " ++ "bogus") :=
  ⟨(C6_unknown_method_errors [] {} "bogus").1 (by decide),
   (C6_unknown_method_errors [] {} "bogus").2 (by decide)⟩

/- =========================================================
   Claim C5: symbols with fewer than 2 prices get return 0
   ========================================================= -/

theorem lookup_map_snd (ph : List (String × List ℝ)) (f : List ℝ → FNum)
    (s : String) :
    ((ph.map (fun p => (p.1, f p.2))).lookup s) = (ph.lookup s).map f := by
  induction ph with
  | nil => rfl
  | cons a t ih =>
    by_cases h : s = a.1
    · simp [List.lookup, h]
    · have hbeq : (s == a.1) = false := beq_false_of_ne h
      simp [List.lookup, hbeq, ih]

theorem sliceLast_length_le {β : Type} (n : ℕ) (l : List β) :
    (sliceLast n l).length ≤ l.length := by
  simp only [sliceLast, List.length_drop]
  omega

/-- C5.  A symbol whose price series has fewer than 2 entries is assigned
the expected return `some 0` by `historical_mean` — a finite value, not
NaN, with no exception — and every symbol in the request is estimated
independently by the same per-symbol function. -/
theorem C5_insufficient_history_zero
    (priceHistory : List (String × List ℝ)) (o : EstOptions) (s : String)
    (prices : List ℝ) (hlook : priceHistory.lookup s = some prices)
    (hlen : prices.length < 2) :
    (historicalMeanReturns priceHistory o).lookup s = some (some 0) ∧
    ∀ t, (historicalMeanReturns priceHistory o).lookup t =
      (priceHistory.lookup t).map (historicalMeanSymbol o) := by
  have hmap : ∀ t, (historicalMeanReturns priceHistory o).lookup t =
      (priceHistory.lookup t).map (historicalMeanSymbol o) := fun t =>
    lookup_map_snd priceHistory (historicalMeanSymbol o) t
  refine ⟨?_, hmap⟩
  rw [hmap s, hlook, Option.map_some']
  have hshort : (sliceLast (effectiveLookback o) prices).length < 2 :=
    lt_of_le_of_lt (sliceLast_length_le _ _) hlen
  simp [historicalMeanSymbol, if_pos hshort]

/-- C5, witness: a one-price symbol next to a normal symbol. -/
theorem C5_insufficient_history_zero_witness :
    (historicalMeanReturns [("A", [5]), ("B", [1, 1, 1])] {}).lookup "A"
      = some (some 0) :=
  (C5_insufficient_history_zero [("A", [5]), ("B", [1, 1, 1])] {} "A" [5]
    (by rfl) (by norm_num)).1


/- =========================================================
   Claim C9: the engine's default lookback window
   ========================================================= -/

theorem logReturns_cons (a b : ℝ) (t : List ℝ) :
    logReturns (a :: b :: t)
      = Flog (Fdiv (some b) (some a)) :: logReturns (b :: t) := by
  simp [logReturns]

theorem logReturns_replicate_one (k : ℕ) :
    logReturns (List.replicate (k + 1) (1 : ℝ))
      = List.replicate k (some (0 : ℝ)) := by
  induction k with
  | zero => simp [logReturns]
  | succ n ih =>
    have h1 : List.replicate (n + 1 + 1) (1:ℝ) = 1 :: 1 :: List.replicate n 1 := by
      rw [List.replicate_succ, List.replicate_succ]
    rw [h1, logReturns_cons]
    have h2 : (1 : ℝ) :: List.replicate n 1 = List.replicate (n + 1) (1:ℝ) :=
      (List.replicate_succ ..).symm
    rw [h2, ih, List.replicate_succ]
    congr 1
    rw [Fdiv_some 1 one_ne_zero, Flog_pos (by norm_num)]
    norm_num

theorem Fsum_replicate_some_zero (k : ℕ) :
    Fsum (List.replicate k (some (0:ℝ))) = some 0 := by
  induction k with
  | zero => rfl
  | succ n ih =>
    rw [List.replicate_succ]
    show Fadd (some 0) (Fsum (List.replicate n (some (0:ℝ)))) = some 0
    rw [ih]
    show some ((0:ℝ) + 0) = some 0
    norm_num

/-- C9, counterexample.  The claim says a call without a lookback option
uses the last 504 daily closes.  On a 253-close history whose first close
is `e` and whose remaining 252 closes are 1, the defaulted call sees only
the last 252 closes (annualised mean log-return 0), while an explicit
`lookback = 504` sees all 253 closes (annualised mean log-return -1): the
engine constructor sets `defaultLookbackPeriod = 252`, not 504. -/
theorem C9_counterexample :
    historicalMeanReturns [("A", Real.exp 1 :: List.replicate 252 1)] {} ≠
      historicalMeanReturns [("A", Real.exp 1 :: List.replicate 252 1)]
        { lookback := some 504 } := by
  have hdef : historicalMeanReturns
      [("A", Real.exp 1 :: List.replicate 252 1)] {} = [("A", some 0)] := by
    simp only [historicalMeanReturns, List.map_cons, List.map_nil,
      historicalMeanSymbol]
    have hslice : sliceLast (effectiveLookback {})
        (Real.exp 1 :: List.replicate 252 1) = List.replicate 252 (1 : ℝ) := by
      show (Real.exp 1 :: List.replicate 252 (1:ℝ)).drop
        ((Real.exp 1 :: List.replicate 252 (1:ℝ)).length - effectiveLookback {})
        = List.replicate 252 (1 : ℝ)
      have : effectiveLookback {} = 252 := rfl
      rw [this]
      simp
    rw [hslice]
    rw [if_neg (by simp)]
    rw [show (252 : ℕ) = 251 + 1 from rfl, logReturns_replicate_one,
      Fsum_replicate_some_zero]
    have hlen : ((List.replicate (251 + 1) (1:ℝ)).length : ℝ) = 252 := by
      simp
    rw [hlen]
    rw [Fdiv_some 0 (by norm_num : (252:ℝ) - 1 ≠ 0), Fmul_some]
    norm_num
  have h504 : historicalMeanReturns
      [("A", Real.exp 1 :: List.replicate 252 1)] { lookback := some 504 }
      = [("A", some (-1))] := by
    simp only [historicalMeanReturns, List.map_cons, List.map_nil,
      historicalMeanSymbol]
    have hslice : sliceLast (effectiveLookback { lookback := some 504 })
        (Real.exp 1 :: List.replicate 252 1)
        = Real.exp 1 :: List.replicate 252 (1 : ℝ) := by
      show (Real.exp 1 :: List.replicate 252 (1:ℝ)).drop
        ((Real.exp 1 :: List.replicate 252 (1:ℝ)).length
          - effectiveLookback { lookback := some 504 })
        = Real.exp 1 :: List.replicate 252 (1 : ℝ)
      have : effectiveLookback { lookback := some 504 } = 504 := rfl
      rw [this]
      simp
    rw [hslice]
    rw [if_neg (by simp)]
    have hlr : logReturns (Real.exp 1 :: List.replicate 252 (1:ℝ))
        = some (-1) :: List.replicate 251 (some (0:ℝ)) := by
      have hrep : List.replicate 252 (1:ℝ) = 1 :: List.replicate 251 1 :=
        List.replicate_succ ..
      rw [hrep, logReturns_cons, ← hrep]
      rw [show (252 : ℕ) = 251 + 1 from rfl, logReturns_replicate_one]
      congr 1
      rw [Fdiv_some 1 (Real.exp_ne_zero 1), Flog_pos (by positivity)]
      rw [one_div, Real.log_inv, Real.log_exp]
    rw [hlr, Fsum_cons, Fsum_replicate_some_zero, Fadd_some]
    have hlen : ((Real.exp 1 :: List.replicate 252 (1:ℝ)).length : ℝ) = 253 := by
      simp
    rw [hlen]
    rw [Fdiv_some _ (by norm_num : (253:ℝ) - 1 ≠ 0), Fmul_some]
    norm_num
  rw [hdef, h504]
  intro h
  norm_num at h

theorem historicalMeanReturns_lookback_congr
    (ph : List (String × List ℝ)) {o1 o2 : EstOptions}
    (h : effectiveLookback o1 = effectiveLookback o2) :
    historicalMeanReturns ph o1 = historicalMeanReturns ph o2 := by
  simp only [historicalMeanReturns, historicalMeanSymbol, h]

theorem exponentialWeightedReturns_lookback_congr
    (ph : List (String × List ℝ)) {o1 o2 : EstOptions}
    (h : effectiveLookback o1 = effectiveLookback o2)
    (hlam : o1.lambda = o2.lambda) :
    exponentialWeightedReturns ph o1 = exponentialWeightedReturns ph o2 := by
  simp only [exponentialWeightedReturns, exponentialWeightedSymbol, h, hlam]

theorem capmReturns_lookback_congr
    (ph : List (String × List ℝ)) {o1 o2 : EstOptions}
    (h : effectiveLookback o1 = effectiveLookback o2)
    (hrf : o1.riskFreeRate = o2.riskFreeRate)
    (hmr : o1.marketReturn = o2.marketReturn)
    (hms : o1.marketSymbol = o2.marketSymbol) :
    capmReturns ph o1 = capmReturns ph o2 := by
  simp only [capmReturns, calculateBetas, h, hrf, hmr, hms]

theorem sampleCovarianceMatrix_lookback_congr
    (ph : List (String × List ℝ)) {o1 o2 : EstOptions}
    (h : effectiveLookback o1 = effectiveLookback o2) :
    sampleCovarianceMatrix ph o1 = sampleCovarianceMatrix ph o2 := by
  simp only [sampleCovarianceMatrix, returnSeries, h]

theorem shrinkageCovarianceMatrix_lookback_congr
    (ph : List (String × List ℝ)) {o1 o2 : EstOptions}
    (h : effectiveLookback o1 = effectiveLookback o2)
    (hsi : o1.shrinkageIntensity = o2.shrinkageIntensity) :
    shrinkageCovarianceMatrix ph o1 = shrinkageCovarianceMatrix ph o2 := by
  simp only [shrinkageCovarianceMatrix,
    sampleCovarianceMatrix_lookback_congr ph h, hsi]

/-- C9, amended.  The engine's default lookback is 252 trading days: for
every price history, every method string and any other options, omitting
the lookback option is the same as passing `lookback = 252` to both
estimator dispatchers. -/
theorem C9_amended (priceHistory : List (String × List ℝ))
    (o : EstOptions) (method : String) :
    (estimateExpectedReturns priceHistory method { o with lookback := none }
      = estimateExpectedReturns priceHistory method
          { o with lookback := some 252 }) ∧
    (estimateCovarianceMatrix priceHistory method { o with lookback := none }
      = estimateCovarianceMatrix priceHistory method
          { o with lookback := some 252 }) := by
  have hl : effectiveLookback { o with lookback := none }
      = effectiveLookback { o with lookback := some 252 } := rfl
  have e1 := historicalMeanReturns_lookback_congr priceHistory hl
  have e2 := exponentialWeightedReturns_lookback_congr priceHistory hl rfl
  have e3 := capmReturns_lookback_congr priceHistory hl rfl rfl rfl
  have e4 := sampleCovarianceMatrix_lookback_congr priceHistory hl
  have e5 := shrinkageCovarianceMatrix_lookback_congr priceHistory hl rfl
  constructor
  · simp only [estimateExpectedReturns, e1, e2, e3]
  · simp only [estimateCovarianceMatrix, factorModelCovariance, e4, e5]

/- =========================================================
   Claim C2: shrinkage intensity 0 versus the sample estimator
   ========================================================= -/

/-- C2, amended.  An explicitly supplied shrinkage intensity of 0 is falsy
in `options.shrinkageIntensity || calculateOptimalShrinkage(...)`, so
`shrinkage` with intensity 0 behaves exactly as if no intensity had been
supplied — it blends with the default intensity 0.1 — and in general does
NOT reproduce the sample covariance. -/
theorem C2_amended (priceHistory : List (String × List ℝ)) (o : EstOptions) :
    shrinkageCovarianceMatrix priceHistory { o with shrinkageIntensity := some 0 }
      = shrinkageCovarianceMatrix priceHistory { o with shrinkageIntensity := none } := by
  have hsample : sampleCovarianceMatrix priceHistory
      { o with shrinkageIntensity := some 0 }
      = sampleCovarianceMatrix priceHistory
        { o with shrinkageIntensity := none } :=
    sampleCovarianceMatrix_lookback_congr priceHistory rfl
  simp only [shrinkageCovarianceMatrix, hsample, jsOrNum, if_pos]

theorem returnSeries_A_eval :
    returnSeries { shrinkageIntensity := some 0 } [1, Real.exp 1, 1]
      = [some 1, some (-1)] := by
  have hsl : sliceLast (effectiveLookback { shrinkageIntensity := some 0 })
      [(1:ℝ), Real.exp 1, 1] = [(1:ℝ), Real.exp 1, 1] := by
    show List.drop _ _ = _
    have he : effectiveLookback { shrinkageIntensity := some 0 } = 252 := rfl
    rw [he]
    norm_num
  simp only [returnSeries, hsl]
  rw [if_neg (by norm_num)]
  rw [logReturns_cons, logReturns_cons]
  have h1 : Flog (Fdiv (some (Real.exp 1)) (some 1)) = some 1 := by
    rw [Fdiv_some _ one_ne_zero, div_one, Flog_pos (Real.exp_pos 1),
      Real.log_exp]
  have h2 : Flog (Fdiv (some 1) (some (Real.exp 1))) = some (-1) := by
    rw [Fdiv_some _ (Real.exp_ne_zero 1), Flog_pos (by positivity),
      one_div, Real.log_inv, Real.log_exp]
  rw [h1, h2]
  simp [logReturns]

theorem returnSeries_B_eval :
    returnSeries { shrinkageIntensity := some 0 } [(1:ℝ), 1, 1]
      = [some 0, some 0] := by
  have hsl : sliceLast (effectiveLookback { shrinkageIntensity := some 0 })
      [(1:ℝ), 1, 1] = [(1:ℝ), 1, 1] := by
    show List.drop _ _ = _
    have he : effectiveLookback { shrinkageIntensity := some 0 } = 252 := rfl
    rw [he]
    norm_num
  simp only [returnSeries, hsl]
  rw [if_neg (by norm_num)]
  rw [logReturns_cons, logReturns_cons]
  have h1 : Flog (Fdiv (some (1:ℝ)) (some 1)) = some 0 := by
    rw [Fdiv_some _ one_ne_zero, div_one, Flog_pos one_pos, Real.log_one]
  rw [h1]
  simp [logReturns]

theorem variance_A_eval :
    calculateVariance [some 1, some (-1)] = some 2 := by
  have hsum : Fsum [some 1, some (-1)] = some 0 := by
    show Fadd (some 1) (Fadd (some (-1)) (some 0)) = some 0
    rw [Fadd_some, Fadd_some]
    norm_num
  simp only [calculateVariance, List.length_cons, List.length_nil]
  rw [if_neg (by norm_num)]
  rw [hsum]
  rw [Fdiv_some _ (by norm_num : ((0+1+1 : ℕ) : ℝ) ≠ 0)]
  have h0 : (0:ℝ) / ((0+1+1 : ℕ) : ℝ) = 0 := by norm_num
  rw [h0]
  show Fdiv (Fadd (Fmul (Fsub (some 1) (some 0)) (Fsub (some 1) (some 0)))
    (Fadd (Fmul (Fsub (some (-1)) (some 0)) (Fsub (some (-1)) (some 0)))
      (some 0))) (some (((0+1+1 : ℕ) : ℝ) - 1)) = some 2
  rw [Fsub_some, Fsub_some, Fmul_some, Fmul_some, Fadd_some, Fadd_some]
  rw [Fdiv_some _ (by norm_num : (((0+1+1 : ℕ) : ℝ) - 1) ≠ 0)]
  norm_num

theorem variance_B_eval :
    calculateVariance [some 0, some 0] = some 0 := by
  have hsum : Fsum [some 0, some 0] = some 0 := by
    show Fadd (some 0) (Fadd (some 0) (some 0)) = some 0
    rw [Fadd_some, Fadd_some]
    norm_num
  simp only [calculateVariance, List.length_cons, List.length_nil]
  rw [if_neg (by norm_num)]
  rw [hsum]
  rw [Fdiv_some _ (by norm_num : ((0+1+1 : ℕ) : ℝ) ≠ 0)]
  have h0 : (0:ℝ) / ((0+1+1 : ℕ) : ℝ) = 0 := by norm_num
  rw [h0]
  show Fdiv (Fadd (Fmul (Fsub (some 0) (some 0)) (Fsub (some 0) (some 0)))
    (Fadd (Fmul (Fsub (some 0) (some 0)) (Fsub (some 0) (some 0)))
      (some 0))) (some (((0+1+1 : ℕ) : ℝ) - 1)) = some 0
  rw [Fsub_some, Fmul_some, Fadd_some, Fadd_some]
  rw [Fdiv_some _ (by norm_num : (((0+1+1 : ℕ) : ℝ) - 1) ≠ 0)]
  norm_num

theorem covariance_AB_eval :
    calculateCovariance [some 1, some (-1)] [some 0, some 0] = some 0 := by
  have hsum1 : Fsum [some 1, some (-1)] = some 0 := by
    show Fadd (some 1) (Fadd (some (-1)) (some 0)) = some 0
    rw [Fadd_some, Fadd_some]
    norm_num
  have hsum2 : Fsum [some 0, some 0] = some 0 := by
    show Fadd (some 0) (Fadd (some 0) (some 0)) = some 0
    rw [Fadd_some, Fadd_some]
    norm_num
  simp only [calculateCovariance, List.length_cons, List.length_nil]
  rw [if_neg (by norm_num)]
  rw [hsum1, hsum2]
  rw [Fdiv_some _ (by norm_num : ((0+1+1 : ℕ) : ℝ) ≠ 0)]
  have h0 : (0:ℝ) / ((0+1+1 : ℕ) : ℝ) = 0 := by norm_num
  rw [h0]
  show Fdiv (Fadd (Fmul (Fsub (some 1) (some 0)) (Fsub (some 0) (some 0)))
    (Fadd (Fmul (Fsub (some (-1)) (some 0)) (Fsub (some 0) (some 0)))
      (some 0))) (some (((0+1+1 : ℕ) : ℝ) - 1)) = some 0
  rw [Fsub_some, Fsub_some, Fsub_some, Fmul_some, Fmul_some, Fadd_some,
    Fadd_some]
  rw [Fdiv_some _ (by norm_num : (((0+1+1 : ℕ) : ℝ) - 1) ≠ 0)]
  norm_num

theorem covariance_BA_eval :
    calculateCovariance [some 0, some 0] [some 1, some (-1)] = some 0 := by
  have hsum1 : Fsum [some 1, some (-1)] = some 0 := by
    show Fadd (some 1) (Fadd (some (-1)) (some 0)) = some 0
    rw [Fadd_some, Fadd_some]
    norm_num
  have hsum2 : Fsum [some 0, some 0] = some 0 := by
    show Fadd (some 0) (Fadd (some 0) (some 0)) = some 0
    rw [Fadd_some, Fadd_some]
    norm_num
  simp only [calculateCovariance, List.length_cons, List.length_nil]
  rw [if_neg (by norm_num)]
  rw [hsum1, hsum2]
  rw [Fdiv_some _ (by norm_num : ((0+1+1 : ℕ) : ℝ) ≠ 0)]
  have h0 : (0:ℝ) / ((0+1+1 : ℕ) : ℝ) = 0 := by norm_num
  rw [h0]
  show Fdiv (Fadd (Fmul (Fsub (some 0) (some 0)) (Fsub (some 1) (some 0)))
    (Fadd (Fmul (Fsub (some 0) (some 0)) (Fsub (some (-1)) (some 0)))
      (some 0))) (some (((0+1+1 : ℕ) : ℝ) - 1)) = some 0
  rw [Fsub_some, Fsub_some, Fsub_some, Fmul_some, Fmul_some, Fadd_some,
    Fadd_some]
  rw [Fdiv_some _ (by norm_num : (((0+1+1 : ℕ) : ℝ) - 1) ≠ 0)]
  norm_num

theorem sample_matrix_eval :
    sampleCovarianceMatrix
      [("A", [1, Real.exp 1, 1]), ("B", [(1:ℝ), 1, 1])]
      { shrinkageIntensity := some 0 }
      = { matrix := [[some 504, some 0], [some 0, some 0]],
          symbols := ["A", "B"] } := by
  simp only [sampleCovarianceMatrix, List.map_cons, List.map_nil,
    returnSeries_A_eval, returnSeries_B_eval]
  norm_num [List.range_succ, sliceLast, variance_A_eval, variance_B_eval,
    covariance_AB_eval, covariance_BA_eval, Fmul_some, CovResult.mk.injEq]
  exact ⟨List.cons_ne_nil _ _, List.cons_ne_nil _ _⟩

theorem avg_cov_eval :
    calculateAverageCovariance [[some 504, some 0], [some 0, some 0]]
      = some 0 := by
  have hsum : Fsum [some 0, some 0] = some 0 := by
    show Fadd (some 0) (Fadd (some 0) (some 0)) = some 0
    rw [Fadd_some, Fadd_some]
    norm_num
  norm_num [calculateAverageCovariance, List.range_succ, List.filter, hsum]
  rw [Fdiv_some _ (by norm_num : (2 : ℝ) ≠ 0)]
  norm_num

theorem shrinkage_matrix_eval :
    shrinkageCovarianceMatrix
      [("A", [1, Real.exp 1, 1]), ("B", [(1:ℝ), 1, 1])]
      { shrinkageIntensity := some 0 }
      = { matrix := [[some (2394/5), some 0], [some 0, some (126/5)]],
          symbols := ["A", "B"] } := by
  have hdiag : Fsum [some 504, some 0] = some 504 := by
    show Fadd (some 504) (Fadd (some 0) (some 0)) = some 504
    rw [Fadd_some, Fadd_some]
    norm_num
  simp only [shrinkageCovarianceMatrix, sample_matrix_eval]
  norm_num [jsOrNum, calculateOptimalShrinkage, List.range_succ, hdiag,
    avg_cov_eval, CovResult.mk.injEq]
  rw [Fdiv_some _ (by norm_num : (2 : ℝ) ≠ 0)]
  norm_num [Fmul_some, Fadd_some]

/-- C2, counterexample.  On a concrete two-symbol price history the
shrinkage estimator called with explicit intensity 0 does not return the
sample covariance: the falsy 0 falls back to the default intensity 0.1,
so the (A,A) entry is 0.9·504 + 0.1·252 = 478.8 instead of the sample
value 504. -/
theorem C2_counterexample :
    shrinkageCovarianceMatrix
      [("A", [1, Real.exp 1, 1]), ("B", [(1:ℝ), 1, 1])]
      { shrinkageIntensity := some 0 }
      ≠ sampleCovarianceMatrix
        [("A", [1, Real.exp 1, 1]), ("B", [(1:ℝ), 1, 1])]
        { shrinkageIntensity := some 0 } := by
  rw [shrinkage_matrix_eval, sample_matrix_eval]
  intro h
  rw [CovResult.mk.injEq] at h
  norm_num at h

/- =========================================================
   Claim C7: non-positive closes in the return pipeline
   ========================================================= -/

theorem getD_mem_of_lt {β : Type} (l : List (List β)) (i : ℕ)
    (h : i < l.length) : l.getD i [] ∈ l := by
  rw [List.getD_eq_getElem?_getD, List.getElem?_eq_getElem h, Option.getD_some]
  exact List.getElem_mem h

theorem getD_nil_of_ge {β : Type} (l : List (List β)) (i : ℕ)
    (h : ¬ i < l.length) : l.getD i [] = [] := by
  rw [List.getD_eq_getElem?_getD, List.getElem?_eq_none (by omega),
    Option.getD_none]

theorem logReturns_length (prices : List ℝ) :
    (logReturns prices).length = prices.length - 1 := by
  simp only [logReturns, List.length_map, List.length_zip, List.length_tail]
  omega

theorem sliceLast_length {β : Type} (n : ℕ) (l : List β) :
    (sliceLast n l).length = l.length - (l.length - n) := by
  simp [sliceLast]

theorem logReturns_finite {prices : List ℝ} (hp : ∀ c ∈ prices, 0 < c) :
    ∀ r ∈ logReturns prices, FFinite r := by
  intro r hr
  simp only [logReturns, List.mem_map] at hr
  obtain ⟨p, hpz, rfl⟩ := hr
  have hm := List.of_mem_zip hpz
  have ha : 0 < p.1 := hp _ hm.1
  have hb : 0 < p.2 := hp _ (List.mem_of_mem_tail hm.2)
  rw [Fdiv_some _ (ne_of_gt ha), Flog_pos (div_pos hb ha)]
  exact FFinite_some _

theorem returnSeries_finite (o : EstOptions) {prices : List ℝ}
    (hp : ∀ c ∈ prices, 0 < c) : ∀ a ∈ returnSeries o prices, FFinite a := by
  intro a ha
  simp only [returnSeries] at ha
  by_cases h : (sliceLast (effectiveLookback o) prices).length < 2
  · rw [if_pos h] at ha
    cases ha
  · rw [if_neg h] at ha
    exact logReturns_finite (fun c hc => hp c (List.drop_subset _ _ hc)) a ha

theorem returnSeries_length_ne_one (o : EstOptions) {prices : List ℝ}
    (h2 : (sliceLast (effectiveLookback o) prices).length ≠ 2) :
    (returnSeries o prices).length ≠ 1 := by
  simp only [returnSeries]
  by_cases h : (sliceLast (effectiveLookback o) prices).length < 2
  · rw [if_pos h]
    simp
  · rw [if_neg h, logReturns_length]
    omega

theorem calculateVariance_finite {series : List FNum}
    (hf : ∀ a ∈ series, FFinite a) (hlen : series.length ≠ 1) :
    FFinite (calculateVariance series) := by
  simp only [calculateVariance]
  by_cases h0 : series.length = 0
  · rw [if_pos h0]
    exact FFinite_some 0
  · rw [if_neg h0]
    have hmean : FFinite (Fdiv (Fsum series) (some (series.length : ℝ))) :=
      FFinite_Fdiv (FFinite_Fsum hf) (Nat.cast_ne_zero.mpr h0)
    refine FFinite_Fdiv (FFinite_Fsum ?_) ?_
    · intro a ha
      obtain ⟨x, hx, rfl⟩ := List.mem_map.mp ha
      exact FFinite_Fmul (FFinite_Fsub (hf x hx) hmean)
        (FFinite_Fsub (hf x hx) hmean)
    · refine sub_ne_zero.mpr (fun hh => hlen ?_)
      exact_mod_cast hh

theorem calculateCovariance_finite {s1 s2 : List FNum}
    (h1 : ∀ a ∈ s1, FFinite a) (h2 : ∀ a ∈ s2, FFinite a)
    (hlen : s1.length ≠ 1) : FFinite (calculateCovariance s1 s2) := by
  simp only [calculateCovariance]
  by_cases hg : s1.length ≠ s2.length ∨ s1.length = 0
  · rw [if_pos hg]
    exact FFinite_some 0
  · rw [if_neg hg]
    push_neg at hg
    obtain ⟨heq, hne0⟩ := hg
    have hm1 : FFinite (Fdiv (Fsum s1) (some (s1.length : ℝ))) :=
      FFinite_Fdiv (FFinite_Fsum h1) (Nat.cast_ne_zero.mpr hne0)
    have hm2 : FFinite (Fdiv (Fsum s2) (some (s2.length : ℝ))) :=
      FFinite_Fdiv (FFinite_Fsum h2) (Nat.cast_ne_zero.mpr
        (by omega : s2.length ≠ 0))
    refine FFinite_Fdiv (FFinite_Fsum ?_) ?_
    · intro a ha
      obtain ⟨p, hpz, rfl⟩ := List.mem_map.mp ha
      have hm := List.of_mem_zip hpz
      exact FFinite_Fmul (FFinite_Fsub (h1 _ hm.1) hm1)
        (FFinite_Fsub (h2 _ hm.2) hm2)
    · refine sub_ne_zero.mpr (fun hh => hlen ?_)
      exact_mod_cast hh

theorem historicalMeanSymbol_finite (o : EstOptions) {prices : List ℝ}
    (hp : ∀ c ∈ prices, 0 < c) : FFinite (historicalMeanSymbol o prices) := by
  simp only [historicalMeanSymbol]
  by_cases h : (sliceLast (effectiveLookback o) prices).length < 2
  · rw [if_pos h]
    exact FFinite_some 0
  · rw [if_neg h]
    refine FFinite_Fmul (FFinite_Fdiv (FFinite_Fsum ?_) ?_) (FFinite_some 252)
    · exact logReturns_finite (fun c hc => hp c (List.drop_subset _ _ hc))
    · refine sub_ne_zero.mpr (fun hh => ?_)
      have : (sliceLast (effectiveLookback o) prices).length = 1 := by
        exact_mod_cast hh
      omega

theorem sampleCovarianceMatrix_finite (ph : List (String × List ℝ))
    (o : EstOptions) (hpos : ∀ p ∈ ph, ∀ c ∈ p.2, 0 < c)
    (hs2 : ∀ p ∈ ph, (sliceLast (effectiveLookback o) p.2).length ≠ 2) :
    ∀ row ∈ (sampleCovarianceMatrix ph o).matrix, ∀ e ∈ row, FFinite e := by
  intro row hrow e he
  simp only [sampleCovarianceMatrix] at hrow
  obtain ⟨i, hi, rfl⟩ := List.mem_map.mp hrow
  obtain ⟨j, hj, rfl⟩ := List.mem_map.mp he
  have hprop : ∀ idx : ℕ,
      (∀ a ∈ (ph.map (fun p => returnSeries o p.2)).getD idx [], FFinite a) ∧
      ((ph.map (fun p => returnSeries o p.2)).getD idx []).length ≠ 1 := by
    intro idx
    by_cases hidx : idx < (ph.map (fun p => returnSeries o p.2)).length
    · have hmem := getD_mem_of_lt _ idx hidx
      obtain ⟨p, hp, hpe⟩ := List.mem_map.mp hmem
      constructor
      · rw [← hpe]
        exact returnSeries_finite o (hpos p hp)
      · rw [← hpe]
        exact returnSeries_length_ne_one o (hs2 p hp)
    · rw [getD_nil_of_ge _ idx hidx]
      exact ⟨fun a ha => absurd ha (List.not_mem_nil a), by simp⟩
  by_cases hg : ((ph.map (fun p => returnSeries o p.2)).getD i []).length ≠ 0 ∧
      ((ph.map (fun p => returnSeries o p.2)).getD j []).length ≠ 0
  · rw [if_pos hg]
    have hsl1 : (sliceLast
        (min ((ph.map (fun p => returnSeries o p.2)).getD i []).length
          ((ph.map (fun p => returnSeries o p.2)).getD j []).length)
        ((ph.map (fun p => returnSeries o p.2)).getD i [])).length ≠ 1 := by
      rw [sliceLast_length]
      have hpi := (hprop i).2
      have hpj := (hprop j).2
      omega
    by_cases hij : i = j
    · rw [if_pos hij]
      refine FFinite_Fmul (calculateVariance_finite ?_ ?_) (FFinite_some 252)
      · intro a ha
        exact (hprop i).1 a (List.drop_subset _ _ ha)
      · rw [hij] at hsl1 ⊢
        exact hsl1
    · rw [if_neg hij]
      refine FFinite_Fmul (calculateCovariance_finite ?_ ?_ hsl1)
        (FFinite_some 252)
      · intro a ha
        exact (hprop i).1 a (List.drop_subset _ _ ha)
      · intro a ha
        exact (hprop j).1 a (List.drop_subset _ _ ha)
  · rw [if_neg hg]
    by_cases hij : i = j
    · rw [if_pos hij]
      exact FFinite_some _
    · rw [if_neg hij]
      exact FFinite_some _

/-- C7, counterexample.  The claim says a price entry with `close ≤ 0` is
treated as missing and skipped, so estimates remain finite.  The code does
not skip: on the series `[1, -1, 1]` both consecutive log-returns take the
logarithm of a negative ratio, producing NaN, and the symbol's expected
return is NaN (`none`), not a finite number computed from the positive
closes. -/
theorem C7_counterexample :
    historicalMeanReturns [("A", [(1:ℝ), -1, 1])] {} = [("A", none)] := by
  simp only [historicalMeanReturns, List.map_cons, List.map_nil,
    historicalMeanSymbol]
  have hsl : sliceLast (effectiveLookback {}) [(1:ℝ), -1, 1]
      = [(1:ℝ), -1, 1] := by
    show List.drop _ _ = _
    have he : effectiveLookback {} = 252 := rfl
    rw [he]
    norm_num
  rw [hsl, if_neg (by norm_num)]
  rw [logReturns_cons, logReturns_cons]
  have h1 : Flog (Fdiv (some (-1:ℝ)) (some 1)) = none := by
    rw [Fdiv_some _ one_ne_zero]
    have hq : (-1:ℝ)/1 = -1 := by norm_num
    rw [hq, Flog_nonpos (by norm_num)]
  rw [h1, Fsum_cons, Fadd_none_left, Fdiv_none_left, Fmul_none_left]

/-- C7, amended.  The qualitative half of the claim that does hold: when
every close is positive, `historical_mean` produces a finite (`some`)
estimate for every symbol; and the sample covariance entries are finite
provided additionally no symbol's sliced series has exactly 2 prices
(exactly 2 prices give a single log-return, whose sample variance divides
by zero and is NaN even though all closes are positive). -/
theorem C7_amended (ph : List (String × List ℝ)) (o : EstOptions)
    (hpos : ∀ p ∈ ph, ∀ c ∈ p.2, 0 < c) :
    (∀ e ∈ historicalMeanReturns ph o, FFinite e.2) ∧
    ((∀ p ∈ ph, (sliceLast (effectiveLookback o) p.2).length ≠ 2) →
      ∀ row ∈ (sampleCovarianceMatrix ph o).matrix, ∀ e ∈ row, FFinite e) := by
  constructor
  · intro e he
    obtain ⟨p, hp, rfl⟩ := List.mem_map.mp he
    exact historicalMeanSymbol_finite o (hpos p hp)
  · intro h2
    exact sampleCovarianceMatrix_finite ph o hpos h2

/-- C7, witness for the amended theorem at a concrete all-positive
three-close history. -/
theorem C7_amended_witness :
    (∀ e ∈ historicalMeanReturns [("A", [(1:ℝ), 1, 1])] {}, FFinite e.2) ∧
    (∀ row ∈ (sampleCovarianceMatrix [("A", [(1:ℝ), 1, 1])] {}).matrix,
      ∀ e ∈ row, FFinite e) := by
  have h := C7_amended [("A", [(1:ℝ), 1, 1])] {} (by
    intro p hp c hc
    simp only [List.mem_singleton] at hp
    subst hp
    simp only [List.mem_cons, List.not_mem_nil, or_false] at hc
    rcases hc with rfl | rfl | rfl <;> norm_num)
  refine ⟨h.1, h.2 ?_⟩
  intro p hp
  simp only [List.mem_singleton] at hp
  subst hp
  show (sliceLast (effectiveLookback {}) [(1:ℝ), 1, 1]).length ≠ 2
  have he : effectiveLookback {} = 252 := rfl
  rw [sliceLast_length, he]
  norm_num

/- =========================================================
   Claim C10: choleskyDecomposition produces finite entries
   ========================================================= -/

/-- Matrix element access `matrix[i][j]` (in-range at every use the source
makes for a square input). -/
def matAt (A : List (List ℝ)) (i j : ℕ) : ℝ := (A.getD i []).getD j 0

/-- The entry `L[i][j]` computed by the nested loops of
`choleskyDecomposition`: entries above the diagonal keep their
initialisation 0; the diagonal is `Math.sqrt(Math.max(0, A[i][i] - Σ_k
L[j][k]²))`; below the diagonal the division is guarded by
`L[j][j] > 0 ? (A[i][j] - Σ_k L[i][k]·L[j][k]) / L[j][j] : 0` (false for a
NaN pivot).  The loop's read-after-write order is reproduced by recursion
on `i + j`. -/
noncomputable def cholEntry (A : List (List ℝ)) : ℕ → ℕ → FNum
  | i, j =>
    if _h1 : i < j then some 0
    else if _h2 : i = j then
      Fsqrt (Fmax (some 0) (Fsub (some (matAt A i i))
        (Fsum ((List.range j).attach.map
          (fun k => Fmul (cholEntry A j k.1) (cholEntry A j k.1))))))
    else
      match cholEntry A j j with
      | some p =>
        if 0 < p then
          Fdiv (Fsub (some (matAt A i j))
            (Fsum ((List.range j).attach.map
              (fun k => Fmul (cholEntry A i k.1) (cholEntry A j k.1)))))
            (some p)
        else some 0
      | none => some 0
  termination_by i j => i + j
  decreasing_by
  all_goals first
    | omega
    | (have hk := List.mem_range.mp k.2
       omega)

/-- Embeds `choleskyDecomposition(matrix)`: the full `n × n` result
array. -/
noncomputable def choleskyDecomposition (A : List (List ℝ)) :
    List (List FNum) :=
  (List.range A.length).map (fun i =>
    (List.range A.length).map (fun j => cholEntry A i j))

theorem cholEntry_finite (A : List (List ℝ)) :
    ∀ i j : ℕ, FFinite (cholEntry A i j) := by
  suffices h : ∀ s : ℕ, ∀ i j : ℕ, i + j = s → FFinite (cholEntry A i j) by
    exact fun i j => h (i + j) i j rfl
  intro s
  induction s using Nat.strong_induction_on with
  | _ s ih =>
    intro i j hs
    rw [cholEntry.eq_def]
    dsimp only
    by_cases h1 : i < j
    · rw [dif_pos h1]
      exact FFinite_some 0
    · rw [dif_neg h1]
      by_cases h2 : i = j
      · rw [dif_pos h2]
        have hsum : FFinite (Fsum ((List.range j).attach.map
            (fun k => Fmul (cholEntry A j k.1) (cholEntry A j k.1)))) := by
          apply FFinite_Fsum
          intro a ha
          obtain ⟨k, _, rfl⟩ := List.mem_map.mp ha
          have hk := List.mem_range.mp k.2
          have hfin := ih (j + k.1) (by omega) j k.1 rfl
          exact FFinite_Fmul hfin hfin
        obtain ⟨x, hx⟩ := hsum
        rw [hx]
        rw [show Fsub (some (matAt A i i)) (some x) = some (matAt A i i - x)
          from rfl]
        rw [show Fmax (some 0) (some (matAt A i i - x))
          = some (max 0 (matAt A i i - x)) from rfl]
        refine ⟨Real.sqrt (max 0 (matAt A i i - x)), ?_⟩
        simp only [Fsqrt]
        rw [if_neg (not_lt.mpr (le_max_left 0 _))]
      · rw [dif_neg h2]
        have hjj := ih (j + j) (by omega) j j rfl
        obtain ⟨p, hp⟩ := hjj
        rw [hp]
        dsimp only
        by_cases hppos : 0 < p
        · rw [if_pos hppos]
          have hsum : FFinite (Fsum ((List.range j).attach.map
              (fun k => Fmul (cholEntry A i k.1) (cholEntry A j k.1)))) := by
            apply FFinite_Fsum
            intro a ha
            obtain ⟨k, _, rfl⟩ := List.mem_map.mp ha
            have hk := List.mem_range.mp k.2
            exact FFinite_Fmul (ih (i + k.1) (by omega) i k.1 rfl)
              (ih (j + k.1) (by omega) j k.1 rfl)
          obtain ⟨x, hx⟩ := hsum
          rw [hx]
          exact FFinite_Fdiv (FFinite_some _) (ne_of_gt hppos)
        · rw [if_neg hppos]
          exact FFinite_some 0

/-- C10.  For every real input matrix, every entry of the decomposition is
a finite real number (the diagonal radicand is clamped at 0 before the
square root and the off-diagonal division only happens under a positive
pivot), and the result is lower-triangular: every entry above the diagonal
is exactly 0. -/
theorem C10_cholesky_finite_lower_triangular (A : List (List ℝ)) :
    (∀ row ∈ choleskyDecomposition A, ∀ e ∈ row, FFinite e) ∧
    (∀ i j : ℕ, i < j → cholEntry A i j = some 0) := by
  constructor
  · intro row hrow e he
    obtain ⟨i, _, rfl⟩ := List.mem_map.mp hrow
    obtain ⟨j, _, rfl⟩ := List.mem_map.mp he
    exact cholEntry_finite A i j
  · intro i j hij
    rw [cholEntry.eq_def]
    dsimp only
    rw [dif_pos hij]

/- =========================================================
   Portfolio optimization engine: mean-variance and the frontier
   ========================================================= -/

/-- `this.riskFreeRate`, set in the engine constructor (2% annual). -/
noncomputable def riskFreeRate : ℝ := 0.02

/-- Embeds `calculatePortfolioVolatility(weights, covariance)`:
`sqrt(Σᵢ Σⱼ wᵢ wⱼ Σᵢⱼ)`.  Indexed accesses are in range at every call the
claims exercise. -/
noncomputable def calculatePortfolioVolatility (weights : List ℝ)
    (covariance : List (List ℝ)) : ℝ :=
  Real.sqrt (((List.range weights.length).map (fun i =>
    ((List.range weights.length).map (fun j =>
      weights.getD i 0 * weights.getD j 0 *
        ((covariance.getD i []).getD j 0))).sum)).sum)

/-- Embeds `calculateSharpeRatio(weights, returns, covariance)` with its
divide-by-zero guard. -/
noncomputable def calculateSharpeRatio (weights returns : List ℝ)
    (covariance : List (List ℝ)) : ℝ :=
  let portfolioReturn := calculatePortfolioReturn weights returns
  let portfolioVol := calculatePortfolioVolatility weights covariance
  if 0 < portfolioVol then (portfolioReturn - riskFreeRate) / portfolioVol
  else 0

/-- Embeds the placeholder `solveMinVariancePortfolio`: equal weights,
ignoring the target return and the constraints. -/
noncomputable def solveMinVariancePortfolio (returns : List ℝ)
    (_covariance : List (List ℝ)) (_targetReturn : Option ℝ)
    (_constraints : JsConstraints ℝ) : List ℝ :=
  List.replicate returns.length (1 / (returns.length : ℝ))

/-- The record resolved by `meanVarianceOptimization`. -/
structure MVOResult where
  weights : List ℝ
  expectedReturn : ℝ
  expectedVolatility : ℝ
  sharpeRatio : ℝ

/-- Embeds `meanVarianceOptimization(returns, covariance, targetReturn,
constraints)` under the awaited (value) reading of the async method: the
dimension validation throws, in source order (an empty covariance makes
`covariance[0].length` a TypeError), and otherwise the placeholder solver
result is wrapped with the derived statistics. -/
noncomputable def meanVarianceOptimization (returns : List ℝ)
    (covariance : List (List ℝ)) (targetReturn : Option ℝ)
    (constraints : JsConstraints ℝ) : Except String MVOResult :=
  if returns.length ≠ covariance.length then
    .error "Dimension mismatch between returns and covariance matrix"
  else
    match covariance.head? with
    | none =>
      .error "TypeError: Cannot read properties of undefined (reading 'length')"
    | some row0 =>
      if covariance.length ≠ row0.length then
        .error "Dimension mismatch between returns and covariance matrix"
      else
        let weights :=
          solveMinVariancePortfolio returns covariance targetReturn constraints
        .ok { weights := weights,
              expectedReturn := calculatePortfolioReturn weights returns,
              expectedVolatility :=
                calculatePortfolioVolatility weights covariance,
              sharpeRatio := calculateSharpeRatio weights returns covariance }

/-- One point of the efficient frontier. -/
structure FrontierPoint where
  expectedReturn : ℝ
  expectedVolatility : ℝ
  weights : List ℝ

/-- Embeds `generateEfficientFrontier(returns, covariance, numPoints)`
under the awaited reading of the mean-variance call (see the C4 record:
the source reads fields off an un-awaited Promise).  `Math.min(...)` /
`Math.max(...)` of a nonempty list are folds; the sweep target is ignored
by the placeholder solver.  Infeasible points are skipped by the
try/catch. -/
noncomputable def generateEfficientFrontier (returns : List ℝ)
    (covariance : List (List ℝ)) (numPoints : ℕ) : List FrontierPoint :=
  let minReturn := returns.foldr min (returns.headD 0)
  let maxReturn := returns.foldr max (returns.headD 0)
  (List.range numPoints).filterMap (fun i =>
    let targetReturn :=
      minReturn + (maxReturn - minReturn) * i / ((numPoints : ℝ) - 1)
    match meanVarianceOptimization returns covariance (some targetReturn) {} with
    | .ok result => some { expectedReturn := result.expectedReturn,
                           expectedVolatility := result.expectedVolatility,
                           weights := result.weights }
    | .error _ => none)

theorem chain_le_replicate {β : Type} (R : β → β → Prop) (x : β) (hR : R x x) :
    ∀ n : ℕ, (List.replicate n x).Chain' R := by
  intro n
  induction n with
  | zero => exact List.chain'_nil
  | succ m ih =>
    cases m with
    | zero => simp
    | succ m0 =>
      rw [List.replicate_succ]
      rw [List.replicate_succ]
      exact List.Chain'.cons hR (by rw [← List.replicate_succ]; exact ih)

theorem filterMap_const_some {β γ : Type} (l : List β) (x : γ) :
    l.filterMap (fun _ => some x) = l.map (fun _ => x) := by
  induction l with
  | nil => rfl
  | cons a t ih => simp [List.filterMap_cons, ih]

theorem map_const_replicate {β γ : Type} (l : List β) (x : γ) :
    l.map (fun _ => x) = List.replicate l.length x := by
  induction l with
  | nil => rfl
  | cons a t ih => simp [ih, List.replicate_succ]

theorem chain_of_all_eq {β : Type} (l : List β) (x : β)
    (R : β → β → Prop) (hR : R x x) (h : ∀ p ∈ l, p = x) : l.Chain' R := by
  induction l with
  | nil => exact List.chain'_nil
  | cons a t ih =>
    cases t with
    | nil => simp
    | cons b t2 =>
      rw [List.chain'_cons]
      constructor
      · rw [h a (List.mem_cons_self _ _),
          h b (List.mem_cons_of_mem _ (List.mem_cons_self _ _))]
        exact hR
      · exact ih (fun p hp => h p (List.mem_cons_of_mem _ hp))

/-- C4 (theorem for the code_bug record).  Under the awaited (value)
reading of the mean-variance call, `generateEfficientFrontier` over a
2-asset universe with `numPoints = 10` sweeps 10 evenly spaced targets and
returns at most 10 points, each with nonnegative expected volatility, with
volatility non-decreasing along the sweep (the placeholder solver makes
all 10 points identical).  The positive-semidefiniteness hypothesis is the
claim's well-conditioning assumption; it keeps the JS radicand
`wᵗΣw = (a+b+c+d)/4` nonnegative, so `Math.sqrt` does not produce NaN.
In the actual source the call is not awaited and every field read off the
pending Promise is `undefined` — see the RESULTS divergence entry. -/
theorem C4_frontier_shape (r1 r2 a b c d : ℝ) (hpsd : 0 ≤ a + b + c + d) :
    (generateEfficientFrontier [r1, r2] [[a, b], [c, d]] 10).length ≤ 10 ∧
    (∀ p ∈ generateEfficientFrontier [r1, r2] [[a, b], [c, d]] 10,
      0 ≤ p.expectedVolatility) ∧
    (generateEfficientFrontier [r1, r2] [[a, b], [c, d]] 10).Chain'
      (fun p q => p.expectedVolatility ≤ q.expectedVolatility) := by
  have hmvo : ∀ t : ℝ,
      meanVarianceOptimization [r1, r2] [[a, b], [c, d]] (some t) {} =
      .ok { weights := List.replicate 2 (1/(2:ℝ)),
            expectedReturn :=
              calculatePortfolioReturn (List.replicate 2 (1/(2:ℝ))) [r1, r2],
            expectedVolatility :=
              calculatePortfolioVolatility (List.replicate 2 (1/(2:ℝ)))
                [[a, b], [c, d]],
            sharpeRatio :=
              calculateSharpeRatio (List.replicate 2 (1/(2:ℝ))) [r1, r2]
                [[a, b], [c, d]] } := by
    intro t
    simp only [meanVarianceOptimization, solveMinVariancePortfolio]
    norm_num
  have hmem : ∀ p ∈ generateEfficientFrontier [r1, r2] [[a, b], [c, d]] 10,
      p = ({ expectedReturn :=
               calculatePortfolioReturn (List.replicate 2 (1/(2:ℝ))) [r1, r2],
             expectedVolatility :=
               calculatePortfolioVolatility (List.replicate 2 (1/(2:ℝ)))
                 [[a, b], [c, d]],
             weights := List.replicate 2 (1/(2:ℝ)) } : FrontierPoint) := by
    intro p hp
    simp only [generateEfficientFrontier, List.mem_filterMap] at hp
    obtain ⟨i, _, hpi⟩ := hp
    rw [hmvo] at hpi
    simp only [Option.some.injEq] at hpi
    exact hpi.symm
  refine ⟨?_, ?_, ?_⟩
  · calc (generateEfficientFrontier [r1, r2] [[a, b], [c, d]] 10).length
        ≤ (List.range 10).length := List.length_filterMap_le _ _
      _ = 10 := List.length_range 10
  · intro p hp
    rw [hmem p hp]
    exact Real.sqrt_nonneg _
  · exact chain_of_all_eq _ _
      (fun p q => p.expectedVolatility ≤ q.expectedVolatility)
      (le_refl _) hmem

/-- C4, witness at the spec's example scenario. -/
theorem C4_frontier_shape_witness :
    (generateEfficientFrontier [0.1, 0.05]
      [[0.04, 0], [0, 0.01]] 10).length ≤ 10 ∧
    (∀ p ∈ generateEfficientFrontier [0.1, 0.05]
      [[0.04, 0], [0, 0.01]] 10, 0 ≤ p.expectedVolatility) ∧
    (generateEfficientFrontier [0.1, 0.05] [[0.04, 0], [0, 0.01]] 10).Chain'
      (fun p q => p.expectedVolatility ≤ q.expectedVolatility) :=
  C4_frontier_shape 0.1 0.05 0.04 0 0 0.01 (by norm_num)

/- =========================================================
   Optimization orchestrator (portfolioOptimizationService)
   ========================================================= -/

/-- A portfolio holding row as read by the orchestrator (the
`current_price` joined from market data may be NULL). -/
structure Holding where
  symbol : String
  quantity : ℝ
  average_cost : ℝ
  current_price : Option ℝ
  category : String

/-- The `estimation` sub-object of the orchestrator request options. -/
structure OrchestratorEstimation where
  returns : Option String := none
  covariance : Option String := none
  lookback : Option ℕ := none

/-- The orchestrator request options.  The optional `constraints` object
is flattened: a missing object and a missing field both read as
`undefined`, which is what the source's `constraints?.field` accesses
observe. -/
structure OrchestratorOptions where
  method : String
  risk_tolerance : Option ℝ := none
  max_position_size : Option ℝ := none
  allowShortSelling : Option Bool := none
  minPositionSize : Option ℝ := none
  estimation : OrchestratorEstimation := {}

/-- The result record the orchestrator is written to produce.  No
execution path actually constructs it (see `planTypeError`), so only the
shape matters to the claims. -/
structure OrchResult where
  method : String
  risk_tolerance : Option ℝ
  estimation_returns : String
  estimation_covariance : String
  estimation_lookback_days : ℕ

/-- The outcome record of an optimization-engine call as the orchestrator
consumes it (absent fields on the JS result object are `none`). -/
structure OptEngineResult where
  weights : List ℝ
  expectedReturn : Option ℝ
  expectedVolatility : Option ℝ
  sharpeRatio : Option ℝ
  expectedCVaR : Option ℝ

/-- The optimization-engine entry points invoked by the orchestrator,
taken as parameters: the claim quantifies over engine outcomes, the
Monte-Carlo generator draws unseeded randomness, and `maximizeSharpeRatio`
inverts a matrix through mathjs.  What is under verification here is the
orchestrator's error routing; the engine algorithms themselves are
embedded separately above. -/
structure OptEngineOracle where
  meanVarianceOptimization : List ℝ → List (List FNum) → Option ℝ →
    JsConstraints ℝ → Except String OptEngineResult
  maximizeSharpeRatio : List ℝ → List (List FNum) → JsConstraints ℝ →
    Except String OptEngineResult
  riskParityOptimization : List (List FNum) → Except String OptEngineResult
  cvarOptimization : List (List ℝ) → ℝ → JsConstraints ℝ →
    Except String OptEngineResult
  blackLittermanOptimization : List ℝ → List (List FNum) →
    Except String OptEngineResult
  generateMonteCarloScenarios : List ℝ → CovResult → ℕ → List (List ℝ)

/-- The message of the TypeError thrown when
`generateImplementationPlan(currentAllocation, optimizedAllocation)` is
invoked: `optimizedAllocation` is the symbol-keyed plain object built by
`symbols.reduce(...)`, and plain objects have no `forEach` method, so the
iteration inside `generateImplementationPlan` throws. -/
def planTypeError : String :=
  "TypeError: optimizedAllocation.forEach is not a function"

/-- The fallback weights computed by `runSimpleOptimization` before it
crashes: equal weights, except random draws for `min-volatility`
(`Math.random()` is the injected source `rnd`). -/
noncomputable def runSimpleOptimizationWeights (rnd : ℕ → ℝ)
    (holdings : List Holding) (method : String) : List ℝ :=
  let n := holdings.length
  if method = "risk-parity" then List.replicate n (1 / (n : ℝ))
  else if method = "min-volatility" then
    let raw := (List.range n).map (fun i => rnd i * 0.5 + 0.5)
    raw.map (fun w => w / raw.sum)
  else List.replicate n (1 / (n : ℝ))

/-- Embeds `runSimpleOptimization(holdings, method, constraints)` (the
`constraints` argument is unused by its body).  The function computes
weights and a symbol-keyed allocation object and then throws: the
`implementation_plan` field of its result literal calls
`generateImplementationPlan` on the plain allocation object.  The degraded
`simple_fallback` result is therefore never returned. -/
noncomputable def runSimpleOptimization (rnd : ℕ → ℝ)
    (holdings : List Holding) (method : String) : Except String OrchResult :=
  let _weights := runSimpleOptimizationWeights rnd holdings method
  .error planTypeError

/-- The `switch (method)` inside the orchestrator's try block. -/
noncomputable def dispatchOptimization (eng : OptEngineOracle)
    (method : String) (returnsArray : List ℝ) (covarianceResult : CovResult)
    (constraintsForOptimization : JsConstraints ℝ) (symbols : List String) :
    Except String OptEngineResult :=
  if method = "mean-variance" then
    eng.meanVarianceOptimization returnsArray covarianceResult.matrix none
      constraintsForOptimization
  else if method = "max-sharpe" then
    eng.maximizeSharpeRatio returnsArray covarianceResult.matrix
      constraintsForOptimization
  else if method = "risk-parity" then
    eng.riskParityOptimization covarianceResult.matrix
  else if method = "min-volatility" then
    eng.meanVarianceOptimization returnsArray covarianceResult.matrix
      (some (returnsArray.foldr min (returnsArray.headD 0) * 1.1))
      constraintsForOptimization
  else if method = "cvar-min" then
    eng.cvarOptimization
      (eng.generateMonteCarloScenarios returnsArray covarianceResult 1000)
      0.05 constraintsForOptimization
  else if method = "black-litterman" then
    eng.blackLittermanOptimization
      (List.replicate symbols.length (1 / (symbols.length : ℝ)))
      covarianceResult.matrix
  else .error ("Unknown optimization method: " ++ method)

/-- Embeds the orchestrator `runOptimization(userId, options)` of
portfolioOptimizationService.  The DB holdings and the market-data
fetcher are the external collaborators, passed as inputs; a failed fetch
degrades that symbol's history to `[]`.  The two estimation calls sit
BEFORE the try block, so their errors propagate to the caller; the
try block covers the method switch and the result assembly, whose
`implementation_plan` field throws `planTypeError`; the catch then calls
`runSimpleOptimization`, which throws the same TypeError. -/
noncomputable def runOptimization (eng : OptEngineOracle) (rnd : ℕ → ℝ)
    (getHistoricalData : String → String → String → Except String (List ℝ))
    (holdings : List Holding) (options : OrchestratorOptions) :
    Except String OrchResult :=
  if holdings.length = 0 then .error "No holdings found for optimization"
  else
    let priceHistories := holdings.map (fun h =>
      (h.symbol,
        match getHistoricalData h.symbol
          (match options.estimation.lookback with
           | some lb => if lb = 0 then "2y"
                        else toString ((lb + 251) / 252) ++ "y"
           | none => "2y") "1d" with
        | .ok data => data
        | .error _ => []))
    match estimateExpectedReturns priceHistories
      (jsOrStr options.estimation.returns "historical_mean")
      { lookback := some (jsOrNum options.estimation.lookback 504) } with
    | .error e => .error e
    | .ok expectedReturns =>
      match estimateCovarianceMatrix priceHistories
        (jsOrStr options.estimation.covariance "shrinkage")
        { lookback := some (jsOrNum options.estimation.lookback 504) } with
      | .error e => .error e
      | .ok covarianceResult =>
        let symbols := expectedReturns.map Prod.fst
        let returnsArray := expectedReturns.map (fun p => p.2.getD 0)
        let constraintsForOptimization : JsConstraints ℝ :=
          { longOnly := some (! (options.allowShortSelling.getD false)),
            maxWeight := some (match options.max_position_size with
              | some v => if v = 0 then 0.3 else v / 100
              | none => 0.3),
            minWeight := some (match options.minPositionSize with
              | some v => if v = 0 then 0.01 else v / 100
              | none => 0.01) }
        let tryBlock : Except String OrchResult :=
          match dispatchOptimization eng options.method returnsArray
            covarianceResult constraintsForOptimization symbols with
          | .error e => .error e
          | .ok _optimizationResult => .error planTypeError
        match tryBlock with
        | .ok r => .ok r
        | .error _ => runSimpleOptimization rnd holdings options.method

theorem catch_block_always_plan_error (x : Except String OptEngineResult)
    (fb : Except String OrchResult) (hfb : fb = .error planTypeError) :
    (match (match x with
            | .error e => (.error e : Except String OrchResult)
            | .ok _ => (.error planTypeError : Except String OrchResult)) with
     | .ok r => (.ok r : Except String OrchResult)
     | .error _ => fb) = .error planTypeError := by
  cases x <;> simp [hfb]

/-- C3 (theorem for the code_bug record).  What the orchestrator actually
does on engine failure, for any engine outcomes whatsoever:
(1) estimation-engine errors (e.g. an unregistered return-method name)
are raised BEFORE the try block and propagate to the caller — no fallback;
(2) with the default estimation methods the orchestrator NEVER returns a
result at all: on the success path the result literal's
`implementation_plan` field throws `planTypeError`, the catch then runs
`runSimpleOptimization`, which throws the same TypeError while building
the degraded result, so the promised `simple_fallback` result is
unreachable and every run rejects. -/
theorem C3_orchestrator_error_routing (eng : OptEngineOracle) (rnd : ℕ → ℝ)
    (getHistoricalData : String → String → String → Except String (List ℝ))
    (holdings : List Holding) (hne : holdings ≠ []) :
    (∀ options : OrchestratorOptions, ∀ m : String,
      options.estimation.returns = some m →
      m ∉ ["historical_mean", "exponential_weighted", "capm",
        "black_litterman"] →
      m ≠ "" →
      runOptimization eng rnd getHistoricalData holdings options =
        .error ("Unknown return estimation method: " ++ m)) ∧
    (∀ options : OrchestratorOptions,
      options.estimation.returns = none →
      options.estimation.covariance = none →
      runOptimization eng rnd getHistoricalData holdings options =
        .error planTypeError) := by
  have hlen : ¬ (holdings.length = 0) :=
    fun h => hne (List.length_eq_zero.mp h)
  constructor
  · intro options m hret hmem hne2
    simp only [List.mem_cons, List.not_mem_nil, or_false, not_or] at hmem
    obtain ⟨h1, h2, h3, h4⟩ := hmem
    simp only [runOptimization, if_neg hlen, hret]
    have hstr : jsOrStr (some m) "historical_mean" = m := by
      simp [jsOrStr, hne2]
    rw [hstr]
    simp [estimateExpectedReturns, h1, h2, h3, h4]
  · intro options hret hcov
    simp only [runOptimization, if_neg hlen, hret, hcov]
    have hstr1 : jsOrStr none "historical_mean" = "historical_mean" := rfl
    have hstr2 : jsOrStr none "shrinkage" = "shrinkage" := rfl
    rw [hstr1, hstr2]
    have hest : ∀ ph o, estimateExpectedReturns ph "historical_mean" o
        = .ok (historicalMeanReturns ph o) := by
      intro ph o
      simp [estimateExpectedReturns]
    have hcov2 : ∀ ph o, estimateCovarianceMatrix ph "shrinkage" o
        = .ok (shrinkageCovarianceMatrix ph o) := by
      intro ph o
      simp [estimateCovarianceMatrix]
    rw [hest, hcov2]
    exact catch_block_always_plan_error _ _ rfl

/-- An engine oracle whose optimization entry points all fail, used to
witness the orchestrator routing theorem. -/
noncomputable def failingEngineOracle : OptEngineOracle :=
  { meanVarianceOptimization := fun _ _ _ _ => .error "Matrix is singular",
    maximizeSharpeRatio := fun _ _ _ => .error "Matrix is singular",
    riskParityOptimization := fun _ => .error "engine failure",
    cvarOptimization := fun _ _ _ => .error "engine failure",
    blackLittermanOptimization := fun _ _ => .error "engine failure",
    generateMonteCarloScenarios := fun _ _ _ => [] }

/-- C3, witness: one concrete holding, a failing engine; the unregistered
estimation method propagates and the default-estimation run ends in the
fallback TypeError. -/
theorem C3_orchestrator_error_routing_witness :
    (runOptimization failingEngineOracle (fun _ => 0) (fun _ _ _ => .ok [])
      [{ symbol := "AAPL", quantity := 1, average_cost := 10,
         current_price := none, category := "Tech" }]
      { method := "max-sharpe", estimation := { returns := some "bogus" } } =
      .error ("Unknown return estimation method: " ++ "bogus")) ∧
    (runOptimization failingEngineOracle (fun _ => 0) (fun _ _ _ => .ok [])
      [{ symbol := "AAPL", quantity := 1, average_cost := 10,
         current_price := none, category := "Tech" }]
      { method := "max-sharpe" } = .error planTypeError) := by
  have h := C3_orchestrator_error_routing failingEngineOracle (fun _ => 0)
    (fun _ _ _ => .ok [])
    [{ symbol := "AAPL", quantity := 1, average_cost := 10,
       current_price := none, category := "Tech" }] (by simp)
  exact ⟨h.1 _ "bogus" rfl (by decide) (by decide), h.2 _ rfl rfl⟩
